import Mathlib

/-!
Shallow embedding of the `@nan0web/http-node` authorization server core,
for checking its natural-language specification against the code.

JavaScript strings are modelled as `List Char` (`Str`); JS `Map` objects and
plain JSON objects used as dictionaries are modelled as association lists
`List (String × α)` with first-match lookup (`lookupKV`), in-place update
(`setKV`, mirroring `Map.set` / object property assignment) and first-match
removal (`eraseKV`, mirroring `Map.delete` / `delete obj[k]`).
Timestamps (`Date.now()`, `Date` values) are modelled as `Int` milliseconds.
Randomness (`crypto.randomBytes`) is modelled by passing the generated token
strings as explicit parameters.
-/

set_option autoImplicit false

namespace HttpNode

/-- JS strings as lists of characters (code points; the sources only use ASCII). -/
abbrev Str := List Char

/-- JS string comparison `a < b || a == b` on code units, as used by the default
`Array.prototype.sort` comparator: lexicographic on the character codes. -/
def charListLe : Str → Str → Bool
  | [], _ => true
  | _ :: _, [] => false
  | a :: as, b :: bs =>
    if a.toNat < b.toNat then true
    else if a.toNat == b.toNat then charListLe as bs else false

/-- The order JS `Array.prototype.sort()` (no comparator) uses on numbers:
it compares `String(a)` and `String(b)` lexicographically. -/
def jsLe (a b : Nat) : Prop := charListLe (Nat.repr a).data (Nat.repr b).data = true

instance jsLe.decRel : DecidableRel jsLe := fun _ _ => inferInstanceAs (Decidable (_ = true))

/-- `Array.prototype.sort()` with no comparator. The comparison `jsLe` is a
total preorder whose ties are only between equal numbers, so any stable sort
(here insertion sort) produces exactly the array JS produces. -/
def jsSortNat (l : List Nat) : List Nat := l.insertionSort jsLe

/-! ### Association lists: JS `Map` and JSON-object dictionaries -/

/-- `map.get(k)` / `obj[k]`: first entry with the given key. -/
def lookupKV {α : Type} (k : String) : List (String × α) → Option α
  | [] => none
  | (k', v) :: t => if k' = k then some v else lookupKV k t

/-- `map.set(k, v)` / `obj[k] = v`: replace the first entry with the key in
place, or append a fresh entry at the end. -/
def setKV {α : Type} (k : String) (v : α) : List (String × α) → List (String × α)
  | [] => [(k, v)]
  | (k', v') :: t => if k' = k then (k, v) :: t else (k', v') :: setKV k v t

/-- `map.delete(k)` / `delete obj[k]`: remove the first entry with the key. -/
def eraseKV {α : Type} (k : String) : List (String × α) → List (String × α)
  | [] => []
  | (k', v') :: t => if k' = k then t else (k', v') :: eraseKV k t

/-- A JS `Map` / JSON object never stores one key twice. -/
def NodupKeys {α : Type} (l : List (String × α)) : Prop := (l.map Prod.fst).Nodup

instance nodupKeys.dec {α : Type} (l : List (String × α)) : Decidable (NodupKeys l) :=
  inferInstanceAs (Decidable (List.Nodup _))

/-! ### `ServerConfig.getPort` (src/src/ServerConfig.js)

The result of a `getPort` call: the returned port number or the thrown
`TypeError`, carrying the exact message string the source builds. -/

inductive PortResult where
  | ok (port : Nat)
  | typeError (msg : Str)
deriving DecidableEq

/-- JS `Array.prototype.join(sep)` on an array of strings. -/
def joinStr (sep : Str) (l : List Str) : Str := List.intercalate sep l

/-- `["Out of list", "[", ports.join(", "), "]"].join(" ")` over the sorted list. -/
def outOfListMsg (sorted : List Nat) : Str :=
  joinStr " ".data
    ["Out of list".data, "[".data,
     joinStr ", ".data (sorted.map (fun n => (Nat.repr n).data)), "]".data]

/-- `["Out of range", "[", ports[0], "-", ports[1], "]"].join(" ")`. -/
def outOfRangeMsg (p0 p1 : Nat) : Str :=
  joinStr " ".data
    ["Out of range".data, "[".data, (Nat.repr p0).data, "-".data, (Nat.repr p1).data, "]".data]

/-- `ServerConfig.getPort(prev)`.  `portsSpec` is `this.ports`; a thrown
`TypeError` becomes `PortResult.typeError` with the same message.
`ports.sort()` is JS default sort, i.e. lexicographic on decimal strings. -/
def getPort (portsSpec : List Nat) (prev : Nat) : PortResult :=
  let ports := jsSortNat portsSpec
  if 2 < portsSpec.length then
    match ports.find? (fun no => prev < no) with
    | some no => .ok no
    | none => .typeError (outOfListMsg ports)
  else if portsSpec.length = 2 then
    let current := if prev = 0 then ports.headD 0 else Nat.max prev (ports.headD 0) + 1
    if ports.getD 1 0 < current then
      .typeError (outOfRangeMsg (ports.headD 0) (ports.getD 1 0))
    else .ok current
  else if portsSpec.length = 1 then .ok (portsSpec.headD 0)
  else .ok 0

/-! ### `AccessControl` (src/src/AccessControl.js, the class the auth server uses) -/

/-- A parsed access rule `{ subject, access, target }`. -/
structure AccessRule where
  subject : Str
  access : Str
  target : Str
deriving DecidableEq

/-- JS `s.split(c)` for a single-character separator. -/
def splitChar (sep : Char) : Str → List Str
  | [] => [[]]
  | c :: cs =>
    match splitChar sep cs with
    | [] => [[]]
    | h :: t => if c == sep then [] :: h :: t else (c :: h) :: t

/-- JS `String.prototype.trim()`. -/
def trimStr (s : Str) : Str :=
  ((s.dropWhile Char.isWhitespace).reverse.dropWhile Char.isWhitespace).reverse

/-- JS `trimmedLine.split(/\s+/)` on an already-trimmed line: the regex splits
on runs of whitespace, leaving the nonempty fragments. -/
def splitWS (s : Str) : List Str :=
  (s.splitOnP Char.isWhitespace).filter (fun t => !t.isEmpty)

/-- JS `s.startsWith(p)`. -/
def startsWithStr : Str → Str → Bool
  | _, [] => true
  | [], _ :: _ => false
  | c :: s, p :: ps => c == p && startsWithStr s ps

/-- JS `s.endsWith(p)`. -/
def endsWithStr (s suf : Str) : Bool := startsWithStr s.reverse suf.reverse

/-- JS `s.includes(c)` for a one-character needle, as used on access strings. -/
def containsChar (s : Str) (c : Char) : Bool := s.any (· == c)

/-- `target.startsWith('/') ? target : '/' + target` — the normalisation the
source applies to both the requested path and each rule target. -/
def withSlash (s : Str) : Str := if startsWithStr s "/".data then s else '/' :: s

/-- `AccessControl.#parseAccessFile(content)`. -/
def parseAccessFile (content : Str) : List AccessRule :=
  if content.isEmpty then []
  else
    ((splitChar '\n' content).filter
      (fun line => !(trimStr line).isEmpty && !startsWithStr line "#".data)).map
      (fun line =>
        let parts := splitWS (trimStr line)
        { subject := parts.headD [], access := (parts.drop 1).headD [],
          target := joinStr " ".data (parts.drop 2) })

/-- `AccessControl.#getUserGroups(username)` applied to the `.group` file
content: lines are trimmed, split on single spaces, and a group is kept
exactly when its member list (everything after the group name) literally
contains the username. -/
def getUserGroups (fileContent : Str) (username : Str) : List Str :=
  let groups := (((splitChar '\n' fileContent).map trimStr).filter
    (fun line => !line.isEmpty)).map (splitChar ' ')
  (groups.filter (fun group => (group.drop 1).contains username)).map (fun a => a.headD [])

/-- `AccessControl.#matchAccess(rules, path, level)` (`path` is already
normalised by the caller). An entry with a falsy (empty) target never
matches. -/
def matchAccess (rules : List AccessRule) (path : Str) (level : Char) : Bool :=
  rules.any fun rule =>
    if rule.target.isEmpty then false
    else
      containsChar rule.access level &&
        (startsWithStr path (withSlash rule.target) ||
          (endsWithStr (withSlash rule.target) "/".data &&
            startsWithStr path (withSlash rule.target)))

/-- `AccessControl.check(username, path, level)`.  The three `loadDocument`
reads (per-user `access.txt`, global `.access`, `.group`) are passed as the
file contents, each defaulting to the empty string when the file is absent. -/
def check (userContent globalContent groupContent : Str) (username pathReq : Str)
    (level : Char) : Bool :=
  let path := if startsWithStr pathReq "/".data then pathReq else '/' :: pathReq
  let globalAccess := parseAccessFile globalContent
  let userGroups := getUserGroups groupContent username
  let userAccess := parseAccessFile userContent
  if matchAccess userAccess path level then true
  else
    let groupRules := globalAccess.filter (fun rule => userGroups.contains rule.subject)
    if matchAccess groupRules path level then true
    else
      let globalRules := globalAccess.filter (fun rule => rule.subject == "*".data)
      matchAccess globalRules path level

/-- C5's own wording of when a rule matches: the level is a character of the
rule's access string and the path, normalised to a leading `/`, starts with
the rule's target, normalised to a leading `/`. -/
def claimRuleMatch (rule : AccessRule) (pathReq : Str) (level : Char) : Bool :=
  containsChar rule.access level && startsWithStr (withSlash pathReq) (withSlash rule.target)

/-- C5's own wording of `check`: some rule matches among (1) the per-user
rules, (2) the global rules whose subject is a group containing the user,
(3) the global rules with subject `*`. -/
def claimCheck (userContent globalContent groupContent : Str) (username pathReq : Str)
    (level : Char) : Bool :=
  let userGroups := getUserGroups groupContent username
  let globalAccess := parseAccessFile globalContent
  (parseAccessFile userContent ++
    globalAccess.filter (fun rule => userGroups.contains rule.subject) ++
    globalAccess.filter (fun rule => rule.subject == "*".data)).any
    (fun rule => claimRuleMatch rule pathReq level)

/-! ### `TokenRotationRegistry` (src TokenRotationRegistry.js) -/

/-- A node of the rotation registry: `{username, createdAt, previousToken}`. -/
structure RotationEntry where
  username : String
  createdAt : Int
  previousToken : Option String
deriving DecidableEq

abbrev Registry := List (String × RotationEntry)

/-- `registerToken(token, username, previousToken)`; `createdAt: new Date()`
is the call time `now`. -/
def registerToken (reg : Registry) (token : String) (username : String)
    (now : Int) (previousToken : Option String) : Registry :=
  setKV token ⟨username, now, previousToken⟩ reg

/-- The `while (current)` loop of `invalidateToken`, with explicit fuel:
every iteration deletes the entry it just looked up, so `reg.length` units
of fuel always suffice and the fuelled loop is the JS loop verbatim.  A JS
falsy `current` (the empty string) stops the walk, as does a missing
entry. -/
def invalidateLoop : Nat → Registry → String → Registry
  | 0, reg, _ => reg
  | fuel + 1, reg, current =>
    if current = "" then reg
    else
      match lookupKV current reg with
      | none => reg
      | some entry =>
        match entry.previousToken with
        | none => eraseKV current reg
        | some p => invalidateLoop fuel (eraseKV current reg) p

/-- `TokenRotationRegistry.invalidateToken(token)`: bail out when the token
is not registered, otherwise run the deletion walk. -/
def invalidateToken (reg : Registry) (token : String) : Registry :=
  match lookupKV token reg with
  | none => reg
  | some _ => invalidateLoop reg.length reg token

/-- The tokens `invalidateToken`'s walk visits: the token itself, its
`previousToken`, that node's `previousToken`, and so on up to the first
missing predecessor — C7's ancestor chain. -/
def chainLoop : Nat → Registry → String → List String
  | 0, _, _ => []
  | fuel + 1, reg, current =>
    if current = "" then []
    else
      match lookupKV current reg with
      | none => []
      | some entry =>
        match entry.previousToken with
        | none => [current]
        | some p => current :: chainLoop fuel (eraseKV current reg) p

def ancestorChain (reg : Registry) (token : String) : List String :=
  chainLoop reg.length reg token

/-! ### `RateLimiter` (src/src/RateLimiter.js) and `AuthServer.authMiddleware` -/

/-- A limiter record `{timestamp, count}`. -/
structure RateEntry where
  timestamp : Int
  count : Nat
deriving DecidableEq

abbrev RateRegistry := List (String × RateEntry)

/-- `RateLimiter.tryAttempt(ip)` at time `now`: resolves with `true`, or
throws `Error('Too many attempts')` (the `Except.error` case carries the
thrown message).  Returns the result together with the updated registry. -/
def tryAttempt (maxAttempts : Nat) (windowMs : Int) (reg : RateRegistry)
    (now : Int) (ip : String) : Except String Bool × RateRegistry :=
  match lookupKV ip reg with
  | some entry =>
    if windowMs < now - entry.timestamp then
      (.ok true, setKV ip ⟨now, 1⟩ reg)
    else if maxAttempts ≤ entry.count then
      (.error "Too many attempts", reg)
    else
      (.ok true, setKV ip ⟨entry.timestamp, entry.count + 1⟩ reg)
  | none => (.ok true, setKV ip ⟨now, 1⟩ reg)

/-- What `AuthServer.authMiddleware` does with one request: continue the
pipeline with `req.user` attached (`next()` called), or respond and halt. -/
inductive MiddlewareOutcome where
  | proceeded (user : Option String)
  | halted (status : Nat) (error : Str)
deriving DecidableEq

/-- `AuthServer.authMiddleware`: `bearer` is the token extracted from the
`Authorization` header (if any), `authFn` resolves a token to a user name
via `db.auth`.  The source guards the limiter with
`if (!(await this.limiter.tryAttempt(ip)))` and responds 429
`{error: 'Too many requests'}` in that branch; a thrown limiter error lands
in the surrounding `catch`, which responds
`res.status(401).json({error: err.message})`. -/
def authMiddleware (maxAttempts : Nat) (windowMs : Int) (reg : RateRegistry)
    (now : Int) (ip : String) (bearer : Option String)
    (authFn : String → Option String) : MiddlewareOutcome × RateRegistry :=
  match tryAttempt maxAttempts windowMs reg now ip with
  | (.error msg, reg') => (.halted 401 msg.data, reg')
  | (.ok ok, reg') =>
    if ok = false then (.halted 429 "Too many requests".data, reg')
    else
      let user := match bearer with
        | none => none
        | some token => if token = "" then none else authFn token
      (.proceeded user, reg')

/-! ### `TokenManager` (src TokenManager.js) and `AuthDB` (src AuthDB.js) -/

def ACCESS_TOKEN_LIFETIME : Int := 3600 * 1000
def REFRESH_TOKEN_LIFETIME : Int := 30 * 24 * 3600 * 1000

structure TokenPair where
  accessToken : String
  refreshToken : String
  accessExpiry : Int
  refreshExpiry : Int
deriving DecidableEq

/-- `TokenManager.createTokenPair(username)` at time `now`; the two
`crypto.randomBytes` tokens are passed in explicitly. -/
def createTokenPair (now : Int) (accessToken refreshToken : String) : TokenPair :=
  { accessToken := accessToken, refreshToken := refreshToken,
    accessExpiry := now + ACCESS_TOKEN_LIFETIME,
    refreshExpiry := now + REFRESH_TOKEN_LIFETIME }

/-- `TokenManager.isAccessValid(time)`: `Date.now() < t + ACCESS_TOKEN_LIFETIME`. -/
def isAccessValid (now time : Int) : Bool := now < time + ACCESS_TOKEN_LIFETIME

/-- `TokenManager.isRefreshValid(time)`. -/
def isRefreshValid (now time : Int) : Bool := now < time + REFRESH_TOKEN_LIFETIME

/-- An entry of `AuthDB.tokens`: `{time, username, isRefresh}`. -/
structure TokenMeta where
  time : Int
  username : String
  isRefresh : Bool
deriving DecidableEq

/-- An entry of a user's `tokens.json`: `{time, isRefresh}`. -/
structure DiskTokenEntry where
  time : Int
  isRefresh : Bool
deriving DecidableEq

/-- A user record (`info.json`): the fields the handlers consult. -/
structure UserRec where
  name : String
  email : String
  passwordHash : String
  verified : Bool
  verificationCode : Option String
  resetCode : Option String
  updatedAt : Int
deriving DecidableEq

/-- One user's directory: `info.json` and `tokens.json`, each `none` when
the file is absent. -/
structure UserDisk where
  info : Option UserRec
  tokensDoc : Option (List (String × DiskTokenEntry))
deriving DecidableEq

/-- `AuthDB`: the in-memory token map plus the on-disk user tree, keyed by
username (`getUserPath` derives the sharded path from the username alone,
so the username is the key). -/
structure AuthState where
  tokens : List (String × TokenMeta)
  disk : List (String × UserDisk)
deriving DecidableEq

/-- `loadDocument(getUserPath(u) + 'tokens.json', {})`. -/
def loadTokensDoc (disk : List (String × UserDisk)) (username : String) :
    List (String × DiskTokenEntry) :=
  match lookupKV username disk with
  | none => []
  | some ud => ud.tokensDoc.getD []

/-- `saveDocument(getUserPath(u) + 'tokens.json', doc)`; parent directories
are created, so the write succeeds whether or not the user directory exists. -/
def saveTokensDoc (disk : List (String × UserDisk)) (username : String)
    (doc : List (String × DiskTokenEntry)) : List (String × UserDisk) :=
  match lookupKV username disk with
  | none => setKV username ⟨none, some doc⟩ disk
  | some ud => setKV username ⟨ud.info, some doc⟩ disk

/-- `dropDocument(getUserPath(u) + 'tokens.json')`; absent file is a no-op. -/
def dropTokensDoc (disk : List (String × UserDisk)) (username : String) :
    List (String × UserDisk) :=
  match lookupKV username disk with
  | none => disk
  | some ud => setKV username ⟨ud.info, none⟩ disk

/-- `dropDocument(getUserPath(u) + 'info.json')`. -/
def dropInfoDoc (disk : List (String × UserDisk)) (username : String) :
    List (String × UserDisk) :=
  match lookupKV username disk with
  | none => disk
  | some ud => setKV username ⟨none, ud.tokensDoc⟩ disk

/-- `loadDocument(getUserPath(u) + 'info.json')` as `getUser` reads it. -/
def loadInfo (disk : List (String × UserDisk)) (username : String) : Option UserRec :=
  match lookupKV username disk with
  | none => none
  | some ud => ud.info

/-- `saveDocument(getUserPath(u) + 'info.json', user)`. -/
def saveInfo (disk : List (String × UserDisk)) (username : String) (rec : UserRec) :
    List (String × UserDisk) :=
  match lookupKV username disk with
  | none => setKV username ⟨some rec, none⟩ disk
  | some ud => setKV username ⟨some rec, ud.tokensDoc⟩ disk

/-- `AuthDB.updateTokens(username, tokenPair)`: store both tokens in the
user's `tokens.json` (keyed by token, value `{time: expiry, isRefresh}`),
then mirror both into the in-memory map. -/
def updateTokens (s : AuthState) (username : String) (pair : TokenPair) : AuthState :=
  let doc0 := loadTokensDoc s.disk username
  let doc1 := setKV pair.accessToken ⟨pair.accessExpiry, false⟩ doc0
  let doc2 := setKV pair.refreshToken ⟨pair.refreshExpiry, true⟩ doc1
  let mem1 := setKV pair.accessToken ⟨pair.accessExpiry, username, false⟩ s.tokens
  let mem2 := setKV pair.refreshToken ⟨pair.refreshExpiry, username, true⟩ mem1
  { tokens := mem2, disk := saveTokensDoc s.disk username doc2 }

/-- `AuthDB.deleteToken(token)`: delete from the in-memory map, then remove
the entry from the owner's `tokens.json` when present. -/
def deleteToken (s : AuthState) (token : String) : AuthState :=
  match lookupKV token s.tokens with
  | none => s
  | some meta =>
    let mem := eraseKV token s.tokens
    let doc := loadTokensDoc s.disk meta.username
    match lookupKV token doc with
    | some _ =>
      { tokens := mem, disk := saveTokensDoc s.disk meta.username (eraseKV token doc) }
    | none => { tokens := mem, disk := s.disk }

/-- `AuthDB.getUser(username)`: null when `info.json` is absent; otherwise
the stored record (the token document merged into the `User` object plays
no role in the properties below). -/
def getUser (s : AuthState) (username : String) : Option UserRec :=
  loadInfo s.disk username

/-- `AuthDB.clearTokens(username)`: drop the token document, then delete
every in-memory token whose owner is the user. -/
def clearTokens (s : AuthState) (username : String) : AuthState :=
  { tokens := s.tokens.filter (fun p => !(p.2.username == username)),
    disk := dropTokensDoc s.disk username }

/-- `AuthDB.deleteUser(username)`: drop `info.json` and `tokens.json`
(nothing else — in particular the in-memory token map is not touched). -/
def deleteUser (s : AuthState) (username : String) : AuthState :=
  { s with disk := dropTokensDoc (dropInfoDoc s.disk username) username }

/-- `AuthDB.auth(token)` at time `now`: fail on a falsy or unknown token;
for a known token check the matching lifetime against the stored `time`
(deleting the token on failure); then load the subject user. -/
def auth (s : AuthState) (now : Int) (token : String) : Option UserRec × AuthState :=
  if token = "" then (none, s)
  else
    match lookupKV token s.tokens with
    | none => (none, s)
    | some data =>
      if data.isRefresh then
        if !(isRefreshValid now data.time) then (none, deleteToken s token)
        else
          match getUser s data.username with
          | none => (none, s)
          | some user => (some user, s)
      else
        if !(isAccessValid now data.time) then (none, deleteToken s token)
        else
          match getUser s data.username with
          | none => (none, s)
          | some user => (some user, s)

/-! ### Auth handlers (src/src/server/AuthServer.js) -/

/-- JSON response bodies the handlers produce (the fields the claims
inspect). -/
inductive RespBody where
  | err (msg : Str)
  | tokenPairBody (accessToken refreshToken : String)
  | msgTokens (msg : Str) (accessToken refreshToken : String)
deriving DecidableEq

/-- A handler's observable effect: HTTP status, JSON body, and the updated
database and rotation-registry states. -/
structure HandlerResult where
  status : Nat
  body : RespBody
  state : AuthState
  registry : Registry
deriving DecidableEq

/-- `TokenRotationRegistry.clearUserTokens(username)`. -/
def clearUserTokensReg (reg : Registry) (username : String) : Registry :=
  reg.filter (fun p => !(p.2.username == username))

/-- `AuthDB.saveUser`'s username validation: `/^[a-z0-9_-]{3,32}$/i`. -/
def validUsername (s : String) : Bool :=
  decide (3 ≤ s.data.length) && decide (s.data.length ≤ 32) &&
    s.data.all (fun c => c.isAlphanum || c == '_' || c == '-')

/-- `AuthDB.saveUser(user)`: throws `Invalid username format` on a bad
name, otherwise writes `info.json` under the user's own name. -/
def saveUser (s : AuthState) (user : UserRec) : Except String AuthState :=
  if validUsername user.name = false then .error "Invalid username format"
  else .ok { s with disk := saveInfo s.disk user.name user }

/-- `AuthServer.handleSignin` for `POST /auth/signin/:username`.
`hash` is `hashPassword` (SHA-256/base64url, deterministic), `a`/`r` the
two tokens `createTokenPair` generates at time `now`.  The final
`tokenRotationRegistry.save()` persists the registry and does not change
it. -/
def handleSignin (s : AuthState) (reg : Registry) (username password : String)
    (a r : String) (now : Int) (hash : String → String) : HandlerResult :=
  match getUser s username with
  | none => ⟨404, .err "Invalid password or username".data, s, reg⟩
  | some user =>
    if !user.verified then
      ⟨403, .err "Account not verified".data, s, reg⟩
    else if user.passwordHash ≠ hash password then
      ⟨401, .err "Invalid password or username".data, s, reg⟩
    else
      ⟨200, .tokenPairBody (createTokenPair now a r).accessToken
          (createTokenPair now a r).refreshToken,
        updateTokens s username (createTokenPair now a r),
        registerToken reg (createTokenPair now a r).refreshToken username now none⟩

/-- `AuthServer.handleResetPassword` for `PUT /auth/forgot/:username`:
404 on unknown user, 401 on reset-code mismatch; otherwise hash the new
password, clear the code, optionally clear tokens and rotation nodes
(`config.clearTokensOnPasswordReset`), mint and store a new pair, register
the refresh token.  A `saveUser` throw propagates (the pipeline turns it
into a 500). -/
def handleResetPassword (s : AuthState) (reg : Registry) (username : String)
    (code password : String) (a r : String) (now : Int) (hash : String → String)
    (clearFlag : Bool) : Except String HandlerResult :=
  match getUser s username with
  | none => .ok ⟨404, .err "Invalid reset code".data, s, reg⟩
  | some user =>
    if user.resetCode ≠ some code then
      .ok ⟨401, .err "Invalid reset code".data, s, reg⟩
    else
      let user1 : UserRec :=
        { user with passwordHash := hash password, resetCode := none, updatedAt := now }
      match saveUser s user1 with
      | .error e => .error e
      | .ok s1 =>
        let s2 := if clearFlag then clearTokens s1 user.name else s1
        let reg2 := if clearFlag then clearUserTokensReg reg user.name else reg
        .ok ⟨200, .msgTokens "Password reset successful".data
            (createTokenPair now a r).accessToken (createTokenPair now a r).refreshToken,
          updateTokens s2 username (createTokenPair now a r),
          registerToken reg2 (createTokenPair now a r).refreshToken username now none⟩

/-! ### C3: the TokenStore/tokens.json mirror invariant -/

/-- Does this user's directory entry hold token `t` in its `tokens.json`? -/
def holdsTok (t : String) (p : String × UserDisk) : Bool :=
  match p.2.tokensDoc with
  | none => false
  | some doc => (lookupKV t doc).isSome

/-- C3's invariant: a token string is in the in-memory map iff exactly one
user's on-disk token document contains it. -/
def tokenInvariant (s : AuthState) : Prop :=
  ∀ t : String, ((lookupKV t s.tokens).isSome = true ↔ s.disk.countP (holdsTok t) = 1)

/-- Every token string mentioned anywhere in the state (the invariant is
trivial outside this list). -/
def tokenKeys (s : AuthState) : List String :=
  s.tokens.map Prod.fst ++
    (s.disk.map (fun p => match p.2.tokensDoc with
      | none => []
      | some doc => doc.map Prod.fst)).flatten

/-- Each in-memory token's owner has a directory entry whose `tokens.json`
contains the token — true in every state the server reaches. -/
def ownersCoherentB (s : AuthState) : Bool :=
  s.tokens.all fun p =>
    match lookupKV p.2.username s.disk with
    | none => false
    | some ud =>
      match ud.tokensDoc with
      | none => false
      | some doc => (lookupKV p.1 doc).isSome

/-- Each token in some user's `tokens.json` is in the in-memory map with
that user as owner — true in every state the server reaches. -/
def docsCoherentB (s : AuthState) : Bool :=
  s.disk.all fun p =>
    match p.2.tokensDoc with
    | none => true
    | some doc => doc.all fun q =>
      match lookupKV q.1 s.tokens with
      | none => false
      | some meta => meta.username == p.1

/-- The record `handleResetPassword` writes back: new password hash, reset
code cleared, `updatedAt` stamped. -/
def resetUser (rec : UserRec) (hash : String → String) (pw : String) (now : Int) : UserRec :=
  { rec with passwordHash := hash pw, resetCode := none, updatedAt := now }

/-- A concrete verified user for instantiating the theorems. -/
def aliceRec : UserRec := ⟨"alice", "a@x", "h", true, none, none, 0⟩

/-- A store holding only alice's `info.json`. -/
def aliceState : AuthState := ⟨[], [("alice", ⟨some aliceRec, none⟩)]⟩

/-- A concrete unverified user holding the reset code `123456`. -/
def bobRec : UserRec := ⟨"bob", "b@x", "h0", false, some "999999", some "123456", 0⟩

/-- A store holding only bob's `info.json`. -/
def bobState : AuthState := ⟨[], [("bob", ⟨some bobRec, none⟩)]⟩

/-! ## Theorems -/

theorem charListLe_refl (a : Str) : charListLe a a = true := by
  induction a with
  | nil => rfl
  | cons x xs ih => simp [charListLe, ih]

theorem charListLe_cons_iff (x y : Char) (xs ys : Str) :
    charListLe (x :: xs) (y :: ys) = true ↔
      x.toNat < y.toNat ∨ (x.toNat = y.toNat ∧ charListLe xs ys = true) := by
  simp only [charListLe]
  split_ifs with h1 h2 <;> simp_all

theorem charListLe_trans : ∀ {a b c : Str},
    charListLe a b = true → charListLe b c = true → charListLe a c = true := by
  intro a
  induction a with
  | nil => intro b c _ _; rfl
  | cons x xs ih =>
    intro b c hab hbc
    cases b with
    | nil => simp [charListLe] at hab
    | cons y ys =>
      cases c with
      | nil => simp [charListLe] at hbc
      | cons z zs =>
        rw [charListLe_cons_iff] at hab hbc ⊢
        rcases hab with h1 | ⟨h1, h1'⟩
        · rcases hbc with h2 | ⟨h2, _⟩
          · exact Or.inl (h1.trans h2)
          · exact Or.inl (h2 ▸ h1)
        · rcases hbc with h2 | ⟨h2, h2'⟩
          · exact Or.inl (h1 ▸ h2)
          · exact Or.inr ⟨h1.trans h2, ih h1' h2'⟩

theorem charListLe_total (a : Str) : ∀ b, charListLe a b = true ∨ charListLe b a = true := by
  induction a with
  | nil => intro b; left; rfl
  | cons x xs ih =>
    intro b
    cases b with
    | nil => right; rfl
    | cons y ys =>
      rw [charListLe_cons_iff, charListLe_cons_iff]
      rcases Nat.lt_trichotomy x.toNat y.toNat with h | h | h
      · exact Or.inl (Or.inl h)
      · rcases ih ys with h' | h'
        · exact Or.inl (Or.inr ⟨h, h'⟩)
        · exact Or.inr (Or.inr ⟨h.symm, h'⟩)
      · exact Or.inr (Or.inl h)

theorem jsLe_refl (a : Nat) : jsLe a a := charListLe_refl _

/-- In a list sorted by a reflexive relation, `find?` returns a minimal
element among those satisfying the predicate. -/
theorem find?_min_of_pairwise {α : Type} {r : α → α → Prop} {p : α → Bool} :
    ∀ {l : List α} {n : α}, (∀ a, r a a) → l.Pairwise r → l.find? p = some n →
      ∀ m ∈ l, p m = true → r n m := by
  intro l
  induction l with
  | nil => intro n _ _ h; simp at h
  | cons a t ih =>
    intro n hrefl hp hfind m hm hpm
    rcases List.pairwise_cons.1 hp with ⟨hhead, htail⟩
    by_cases hpa : p a = true
    · rw [List.find?_cons_of_pos _ hpa] at hfind
      cases hfind
      rcases List.mem_cons.1 hm with rfl | hm'
      · exact hrefl m
      · exact hhead m hm'
    · rw [List.find?_cons_of_neg _ hpa] at hfind
      rcases List.mem_cons.1 hm with rfl | hm'
      · exact absurd hpm hpa
      · exact ih hrefl htail hfind m hm' hpm

theorem sorted_jsSortNat (l : List Nat) : (jsSortNat l).Pairwise jsLe := by
  haveI : IsTotal Nat jsLe := ⟨fun a b => charListLe_total _ _⟩
  haveI : IsTrans Nat jsLe := ⟨fun _ _ _ hab hbc => charListLe_trans hab hbc⟩
  exact List.sorted_insertionSort jsLe l

theorem perm_jsSortNat (l : List Nat) : (jsSortNat l).Perm l := List.perm_insertionSort jsLe l

theorem outOfListMsg_starts (sorted : List Nat) :
    ∃ rest, outOfListMsg sorted = "Out of list".data ++ rest := by
  refine ⟨" ".data ++ ("[".data ++ (" ".data ++
    (joinStr ", ".data (sorted.map fun n => (Nat.repr n).data) ++ (" ".data ++ "]".data)))), ?_⟩
  simp [outOfListMsg, joinStr, List.intercalate]

/-- C8 (counterexample): for the port list `[9, 10, 11]` and `prev = 0`,
the numerically smallest element strictly greater than 0 is 9, but
`getPort` returns 10: JS default sort orders the list as decimal strings
(`"10" < "11" < "9"`), so the scan finds 10 first. -/
theorem getPort_list_not_numeric_min :
    3 ≤ ([9, 10, 11] : List Nat).length ∧
    9 ∈ ([9, 10, 11] : List Nat) ∧ 0 < 9 ∧
    (∀ m ∈ ([9, 10, 11] : List Nat), 0 < m → 9 ≤ m) ∧
    getPort [9, 10, 11] 0 = .ok 10 ∧
    getPort [9, 10, 11] 0 ≠ .ok 9 := by decide

/-- C8 (amended): for a port list of at least 3 numbers, `getPort prev`
returns an element of the list strictly greater than `prev` that is minimal
in the decimal-string order `jsLe` used by JS default sort (the numeric
minimum only when the two orders agree on the list); it throws a `TypeError`
whose message starts with `Out of list` exactly when no element of the list
is strictly greater than `prev`. -/
theorem getPort_list_spec (ports : List Nat) (prev : Nat) (h3 : 3 ≤ ports.length) :
    (∀ n, getPort ports prev = .ok n →
        n ∈ ports ∧ prev < n ∧ ∀ m ∈ ports, prev < m → jsLe n m) ∧
    ((∃ msg, getPort ports prev = .typeError msg ∧
        ∃ rest, msg = "Out of list".data ++ rest) ↔ ∀ m ∈ ports, m ≤ prev) := by
  have hlen : 2 < ports.length := h3
  have hperm := perm_jsSortNat ports
  have hsort := sorted_jsSortNat ports
  constructor
  · intro n hn
    unfold getPort at hn
    rw [if_pos hlen] at hn
    cases hfind : (jsSortNat ports).find? (fun no => decide (prev < no)) with
    | none => rw [hfind] at hn; cases hn
    | some n' =>
      rw [hfind] at hn
      cases hn
      have hmem : n ∈ jsSortNat ports := List.mem_of_find?_eq_some hfind
      have hp : prev < n := by simpa using List.find?_some hfind
      refine ⟨hperm.subset hmem, hp, fun m hm hpm => ?_⟩
      exact find?_min_of_pairwise jsLe_refl hsort hfind m
        (hperm.symm.subset hm) (by simpa using hpm)
  · constructor
    · rintro ⟨msg, hmsg, -⟩
      unfold getPort at hmsg
      rw [if_pos hlen] at hmsg
      cases hfind : (jsSortNat ports).find? (fun no => decide (prev < no)) with
      | none =>
        intro m hm
        have := List.find?_eq_none.1 hfind m (hperm.symm.subset hm)
        simpa using this
      | some n' => rw [hfind] at hmsg; cases hmsg
    · intro hall
      have hnone : (jsSortNat ports).find? (fun no => decide (prev < no)) = none :=
        List.find?_eq_none.2 (fun x hx => by simpa using Nat.not_lt.2 (hall x (hperm.subset hx)))
      refine ⟨outOfListMsg (jsSortNat ports), ?_, outOfListMsg_starts _⟩
      unfold getPort
      rw [if_pos hlen, hnone]

/-- C8 (witness): instantiating the amended claim on the list
`[3000, 3001, 3002]` of the repository's own test, where `getPort 0 = 3000`. -/
theorem getPort_list_spec_witness :
    3000 ∈ ([3000, 3001, 3002] : List Nat) ∧ 0 < 3000 ∧
    ∀ m ∈ ([3000, 3001, 3002] : List Nat), 0 < m → jsLe 3000 m :=
  (getPort_list_spec [3000, 3001, 3002] 0 (by decide)).1 3000 (by decide)

/-- C9 (counterexample): `[80, 700]` is a two-element range with
`min = 80`, `max = 700`, yet `getPort 0` does not return 80: the
string sort reorders the bounds to `[700, 80]` and the call throws
`TypeError: Out of range [ 700 - 80 ]`. -/
theorem getPort_range_not_min :
    (80 : Nat) ≤ 700 ∧
    getPort [80, 700] 0 = .typeError "Out of range [ 700 - 80 ]".data ∧
    getPort [80, 700] 0 ≠ .ok 80 := by decide

/-- C9 (amended): for a two-element range `[min, max]` with `min ≤ max`
whose bounds compare the same way as decimal strings (`jsLe min max`, which
holds for instance when both have the same number of digits, as in the
repository's tests): `getPort 0 = min`; for `prev ≠ 0`, `getPort prev =
max(prev, min) + 1` when that value is at most `max`, and otherwise throws a
`TypeError` whose message is exactly `Out of range [ min - max ]`, which
spells out both bounds. -/
theorem getPort_range_spec (a b : Nat) (hab : a ≤ b) (hjs : jsLe a b) :
    getPort [a, b] 0 = .ok a ∧
    (∀ prev, prev ≠ 0 →
      (Nat.max prev a + 1 ≤ b → getPort [a, b] prev = .ok (Nat.max prev a + 1)) ∧
      (b < Nat.max prev a + 1 → getPort [a, b] prev = .typeError
        ("Out of range [ ".data ++ (Nat.repr a).data ++
          (" - ".data ++ ((Nat.repr b).data ++ " ]".data))))) := by
  have hsort2 : jsSortNat [a, b] = [a, b] := by
    simp [jsSortNat, List.insertionSort, List.orderedInsert, if_pos hjs]
  have hmsg : outOfRangeMsg a b =
      "Out of range [ ".data ++ (Nat.repr a).data ++
        (" - ".data ++ ((Nat.repr b).data ++ " ]".data)) := by
    simp [outOfRangeMsg, joinStr, List.intercalate]
  have hbranch : ∀ p, getPort [a, b] p =
      if b < (if p = 0 then a else Nat.max p a + 1) then .typeError (outOfRangeMsg a b)
      else .ok (if p = 0 then a else Nat.max p a + 1) := by
    intro p
    unfold getPort
    rw [hsort2]
    simp [List.getD]
  refine ⟨?_, fun prev hprev => ⟨fun hle => ?_, fun hgt => ?_⟩⟩
  · rw [hbranch 0]
    simp [Nat.not_lt.2 hab]
  · rw [hbranch prev]
    simp [hprev, Nat.not_lt.2 hle]
  · rw [hbranch prev]
    rw [← hmsg]
    simp [hprev, hgt]

/-- C9 (witness): the spec's own scenario, port spec `[3000, 3001]`:
`getPort 0 = 3000`, `getPort 3000 = 3001`, and `getPort 3001` throws with a
message spelling out 3000 and 3001. -/
theorem getPort_range_spec_witness :
    getPort [3000, 3001] 0 = .ok 3000 ∧
    getPort [3000, 3001] 3000 = .ok 3001 ∧
    getPort [3000, 3001] 3001 = .typeError
      ("Out of range [ ".data ++ (Nat.repr 3000).data ++
        (" - ".data ++ ((Nat.repr 3001).data ++ " ]".data))) := by
  have h := getPort_range_spec 3000 3001 (by decide) (by decide)
  refine ⟨h.1, ?_, ?_⟩
  · have h2 := (h.2 3000 (by decide)).1 (by decide)
    simpa using h2
  · have h3 := (h.2 3001 (by decide)).2 (by decide)
    simpa using h3

theorem bool_or_and_self (a c : Bool) : (a || (c && a)) = a := by
  cases a <;> cases c <;> rfl

theorem any_congr_mem {α : Type} (l : List α) (p q : α → Bool)
    (h : ∀ x ∈ l, p x = q x) : l.any p = l.any q := by
  induction l with
  | nil => rfl
  | cons a t ih => simp only [List.any_cons, h a (List.mem_cons_self a t),
      ih (fun x hx => h x (List.mem_cons_of_mem a hx))]

theorem isEmpty_false_of_ne_nil {α : Type} {l : List α} (h : l ≠ []) : l.isEmpty = false := by
  cases l with
  | nil => exact absurd rfl h
  | cons a t => rfl

theorem matchAccess_eq_claim (rules : List AccessRule) (pathReq : Str) (level : Char)
    (h : ∀ r ∈ rules, r.target ≠ []) :
    matchAccess rules (withSlash pathReq) level =
      rules.any (fun r => claimRuleMatch r pathReq level) := by
  unfold matchAccess
  refine any_congr_mem _ _ _ (fun r hr => ?_)
  rw [if_neg (by simp [isEmpty_false_of_ne_nil (h r hr)])]
  rw [bool_or_and_self]
  rfl

theorem check_unfold (uc gc grc un p : Str) (l : Char) :
    check uc gc grc un p l =
      (matchAccess (parseAccessFile uc) (withSlash p) l ||
       (matchAccess ((parseAccessFile gc).filter
          (fun r => (getUserGroups grc un).contains r.subject)) (withSlash p) l ||
        matchAccess ((parseAccessFile gc).filter
          (fun r => r.subject == "*".data)) (withSlash p) l)) := by
  have hws : (if startsWithStr p "/".data then p else '/' :: p) = withSlash p := rfl
  simp only [check, hws]
  by_cases h1 : matchAccess (parseAccessFile uc) (withSlash p) l = true
  · rw [if_pos h1, h1, Bool.true_or]
  · have h1f : matchAccess (parseAccessFile uc) (withSlash p) l = false :=
      Bool.eq_false_iff.mpr h1
    rw [if_neg h1, h1f, Bool.false_or]
    by_cases h2 : matchAccess ((parseAccessFile gc).filter
        (fun rule => (getUserGroups grc un).contains rule.subject)) (withSlash p) l = true
    · rw [if_pos h2, h2, Bool.true_or]
    · have h2f : matchAccess ((parseAccessFile gc).filter
          (fun rule => (getUserGroups grc un).contains rule.subject)) (withSlash p) l = false :=
        Bool.eq_false_iff.mpr h2
      rw [if_neg h2, h2f, Bool.false_or]

/-- C5: `AccessControl.check` grants access exactly when some rule matches
among (1) the user's per-user rules, (2) the global rules whose subject is a
group listing the user, (3) the global `*` rules — a rule (with the
grammar's nonempty target) matching exactly when the level is a character of
its access string and the path normalised to a leading `/` starts with the
target normalised to a leading `/`.  In particular a `*`-rule with target
`test/` does not match path `/test` but does match `/test/x`. -/
theorem check_access_spec (uc gc grc un p : Str) (l : Char)
    (hu : ∀ r ∈ parseAccessFile uc, r.target ≠ [])
    (hg : ∀ r ∈ parseAccessFile gc, r.target ≠ []) :
    check uc gc grc un p l = claimCheck uc gc grc un p l ∧
    check [] "* rwd test/".data [] "alice".data "/test".data 'r' = false ∧
    check [] "* rwd test/".data [] "alice".data "/test/x".data 'r' = true := by
  refine ⟨?_, by decide, by decide⟩
  rw [check_unfold]
  rw [matchAccess_eq_claim _ _ _ hu]
  rw [matchAccess_eq_claim _ _ _
    (fun r hr => hg r (List.mem_filter.1 hr).1)]
  rw [matchAccess_eq_claim _ _ _
    (fun r hr => hg r (List.mem_filter.1 hr).1)]
  unfold claimCheck
  simp [List.any_append]

/-- C5 (witness): `check` against concrete per-user, global and group files
coincides with the claim's formulation. -/
theorem check_access_spec_witness :
    check "alice rw docs/".data "* r public/\nteam rwd shared/".data "team alice bob".data
        "alice".data "shared/x.json".data 'd' =
      claimCheck "alice rw docs/".data "* r public/\nteam rwd shared/".data "team alice bob".data
        "alice".data "shared/x.json".data 'd' :=
  (check_access_spec "alice rw docs/".data "* r public/\nteam rwd shared/".data
    "team alice bob".data "alice".data "shared/x.json".data 'd'
    (by decide) (by decide)).1

/-- C6: with the `.group` file of the auth server's own doc comment —
`developer` lists the member `.correspondent` and `correspondent` lists
`testuser` — the evaluator still computes `testuser`'s groups as only
`admin` and `correspondent`: the `.correspondent` reference is never
resolved, contradicting the documented one-level indirection. -/
theorem getUserGroups_no_indirection :
    getUserGroups "admin testuser\ndeveloper anyuser .correspondent\ncorrespondent testuser".data
        "testuser".data = ["admin".data, "correspondent".data] ∧
    "developer".data ∉
      getUserGroups "admin testuser\ndeveloper anyuser .correspondent\ncorrespondent testuser".data
        "testuser".data ∧
    ".correspondent".data ∈ (splitChar ' ' "developer anyuser .correspondent".data).drop 1 ∧
    "testuser".data ∈ (splitChar ' ' "correspondent testuser".data).drop 1 := by decide

/-! ### Association-list lemmas -/

theorem lookupKV_eq_none_iff {α : Type} (k : String) (l : List (String × α)) :
    lookupKV k l = none ↔ k ∉ l.map Prod.fst := by
  induction l with
  | nil => simp [lookupKV]
  | cons a t ih =>
    obtain ⟨a1, a2⟩ := a
    by_cases h : a1 = k
    · subst h; simp [lookupKV]
    · simp [lookupKV, h, ih, Ne.symm h]

theorem lookupKV_eraseKV_ne {α : Type} (k k' : String) (h : k ≠ k') (l : List (String × α)) :
    lookupKV k (eraseKV k' l) = lookupKV k l := by
  induction l with
  | nil => rfl
  | cons a t ih =>
    obtain ⟨a1, a2⟩ := a
    by_cases h1 : a1 = k'
    · subst h1
      simp [eraseKV, lookupKV, Ne.symm h]
    · by_cases h2 : a1 = k
      · subst h2
        simp [eraseKV, lookupKV, h1]
      · simp [eraseKV, lookupKV, h1, h2, ih]

theorem lookupKV_eraseKV_self {α : Type} (k : String) (l : List (String × α))
    (h : NodupKeys l) : lookupKV k (eraseKV k l) = none := by
  induction l with
  | nil => rfl
  | cons a t ih =>
    obtain ⟨a1, a2⟩ := a
    obtain ⟨hnotin, hnd⟩ := List.nodup_cons.1 h
    by_cases h1 : a1 = k
    · subst h1
      simp only [eraseKV, if_pos rfl]
      exact (lookupKV_eq_none_iff _ _).2 hnotin
    · simp [eraseKV, lookupKV, h1, ih hnd]

theorem eraseKV_sublist {α : Type} (k : String) (l : List (String × α)) :
    (eraseKV k l).Sublist l := by
  induction l with
  | nil => exact List.Sublist.refl _
  | cons a t ih =>
    obtain ⟨a1, a2⟩ := a
    by_cases h1 : a1 = k
    · simp only [eraseKV, if_pos h1]
      exact List.sublist_cons_self _ _
    · simp only [eraseKV, if_neg h1]
      exact ih.cons₂ _

theorem nodupKeys_eraseKV {α : Type} (k : String) (l : List (String × α))
    (h : NodupKeys l) : NodupKeys (eraseKV k l) :=
  ((eraseKV_sublist k l).map Prod.fst).nodup h

theorem length_eraseKV_lt {α : Type} (k : String) (l : List (String × α)) (v : α)
    (h : lookupKV k l = some v) : (eraseKV k l).length < l.length := by
  induction l with
  | nil => simp [lookupKV] at h
  | cons a t ih =>
    obtain ⟨a1, a2⟩ := a
    by_cases h1 : a1 = k
    · simp [eraseKV, h1]
    · simp only [lookupKV, if_neg h1] at h
      simp only [eraseKV, if_neg h1, List.length_cons]
      exact Nat.succ_lt_succ (ih h)

theorem lookupKV_setKV_self {α : Type} (k : String) (v : α) (l : List (String × α)) :
    lookupKV k (setKV k v l) = some v := by
  induction l with
  | nil => simp [setKV, lookupKV]
  | cons a t ih =>
    obtain ⟨a1, a2⟩ := a
    by_cases h : a1 = k
    · subst h; simp [setKV, lookupKV]
    · simp [setKV, lookupKV, h, ih]

theorem lookupKV_setKV_ne {α : Type} (k k' : String) (v : α) (l : List (String × α))
    (h : k ≠ k') : lookupKV k (setKV k' v l) = lookupKV k l := by
  induction l with
  | nil => simp [setKV, lookupKV, Ne.symm h]
  | cons a t ih =>
    obtain ⟨a1, a2⟩ := a
    by_cases h1 : a1 = k'
    · subst h1; simp [setKV, lookupKV, Ne.symm h, h]
    · by_cases h2 : a1 = k
      · subst h2; simp [setKV, lookupKV, h1]
      · simp [setKV, lookupKV, h1, h2, ih]

theorem mem_keys_setKV {α : Type} (x k : String) (v : α) (l : List (String × α)) :
    x ∈ (setKV k v l).map Prod.fst ↔ x = k ∨ x ∈ l.map Prod.fst := by
  induction l with
  | nil => simp [setKV]
  | cons a t ih =>
    obtain ⟨a1, a2⟩ := a
    by_cases h : a1 = k
    · subst h
      simp [setKV]
    · simp [setKV, h, ih]
      tauto

theorem nodupKeys_setKV {α : Type} (k : String) (v : α) (l : List (String × α))
    (h : NodupKeys l) : NodupKeys (setKV k v l) := by
  induction l with
  | nil => simp [setKV, NodupKeys]
  | cons a t ih =>
    obtain ⟨a1, a2⟩ := a
    have h' : a1 ∉ t.map Prod.fst ∧ NodupKeys t := by
      simpa [NodupKeys] using h
    by_cases h1 : a1 = k
    · subst h1
      simpa [NodupKeys, setKV] using h'
    · simp only [NodupKeys, setKV, if_neg h1, List.map_cons, List.nodup_cons]
      refine ⟨?_, ih h'.2⟩
      intro hmem
      rcases (mem_keys_setKV a1 k v t).1 hmem with rfl | hin
      · exact h1 rfl
      · exact h'.1 hin

/-! ### C7: cascade invalidation of the rotation chain -/

theorem chainLoop_of_lookup_none (fuel : Nat) (reg : Registry) (t : String)
    (h : lookupKV t reg = none) : chainLoop fuel reg t = [] := by
  cases fuel with
  | zero => rfl
  | succ n =>
    by_cases ht : t = "" <;> simp [chainLoop, ht, h]

theorem invalidateLoop_spec : ∀ (fuel : Nat) (reg : Registry) (current : String),
    reg.length ≤ fuel → NodupKeys reg →
    (∀ x ∈ chainLoop fuel reg current, lookupKV x (invalidateLoop fuel reg current) = none) ∧
    (∀ x, x ∉ chainLoop fuel reg current →
      lookupKV x (invalidateLoop fuel reg current) = lookupKV x reg) := by
  intro fuel
  induction fuel with
  | zero =>
    intro reg current _ _
    exact ⟨fun x hx => by simp [chainLoop] at hx, fun x _ => rfl⟩
  | succ n ih =>
    intro reg current hlen hnd
    by_cases hc : current = ""
    · refine ⟨fun x hx => ?_, fun x _ => ?_⟩
      · simp [chainLoop, hc] at hx
      · simp [invalidateLoop, hc]
    · cases hl : lookupKV current reg with
      | none =>
        refine ⟨fun x hx => ?_, fun x _ => ?_⟩
        · simp [chainLoop, hc, hl] at hx
        · simp [invalidateLoop, hc, hl]
      | some entry =>
        cases hp : entry.previousToken with
        | none =>
          refine ⟨fun x hx => ?_, fun x hx => ?_⟩
          · simp only [chainLoop, if_neg hc, hl, hp, List.mem_singleton] at hx
            subst hx
            simp only [invalidateLoop, if_neg hc, hl, hp]
            exact lookupKV_eraseKV_self _ _ hnd
          · simp only [chainLoop, if_neg hc, hl, hp, List.mem_singleton] at hx
            simp only [invalidateLoop, if_neg hc, hl, hp]
            exact lookupKV_eraseKV_ne _ _ hx _
        | some p =>
          have hlen' : (eraseKV current reg).length ≤ n := by
            have := length_eraseKV_lt current reg entry hl
            omega
          have hnd' := nodupKeys_eraseKV current reg hnd
          obtain ⟨ih1, ih2⟩ := ih (eraseKV current reg) p hlen' hnd'
          refine ⟨fun x hx => ?_, fun x hx => ?_⟩
          · simp only [chainLoop, if_neg hc, hl, hp, List.mem_cons] at hx
            simp only [invalidateLoop, if_neg hc, hl, hp]
            rcases hx with rfl | hx'
            · by_cases hcc : x ∈ chainLoop n (eraseKV x reg) p
              · exact ih1 _ hcc
              · rw [ih2 _ hcc]
                exact lookupKV_eraseKV_self _ _ hnd
            · exact ih1 _ hx'
          · simp only [chainLoop, if_neg hc, hl, hp, List.mem_cons, not_or] at hx
            simp only [invalidateLoop, if_neg hc, hl, hp]
            rw [ih2 _ hx.2]
            exact lookupKV_eraseKV_ne _ _ hx.1 _

/-- C7: after `invalidateToken t`, the node for `t` and every ancestor on
`t`'s prefix chain (its `previousToken`, that node's `previousToken`, …, up
to the first missing predecessor) is absent from the registry; every token
not on that chain keeps exactly its old entry; and invalidating a token
that is not registered leaves the registry unchanged. -/
theorem invalidateToken_spec (reg : Registry) (t : String) (hnd : NodupKeys reg) :
    (∀ x ∈ ancestorChain reg t, lookupKV x (invalidateToken reg t) = none) ∧
    (∀ x, x ∉ ancestorChain reg t → lookupKV x (invalidateToken reg t) = lookupKV x reg) ∧
    (lookupKV t reg = none → invalidateToken reg t = reg) := by
  cases h : lookupKV t reg with
  | none =>
    have hchain : ancestorChain reg t = [] := chainLoop_of_lookup_none _ _ _ h
    have hinv : invalidateToken reg t = reg := by simp [invalidateToken, h]
    exact ⟨fun x hx => by simp [hchain] at hx, fun x _ => by rw [hinv], fun _ => hinv⟩
  | some e =>
    have hinv : invalidateToken reg t = invalidateLoop reg.length reg t := by
      simp [invalidateToken, h]
    obtain ⟨h1, h2⟩ := invalidateLoop_spec reg.length reg t le_rfl hnd
    exact ⟨fun x hx => hinv ▸ h1 x hx, fun x hx => hinv ▸ h2 x hx,
      fun habs => by simp [h] at habs⟩

/-- C7 (witness): in the registry `a → b` (with `c` unrelated), invalidating
`a` removes `a` and its ancestor `b`, leaves `c` untouched, and invalidating
an unregistered token is a no-op. -/
theorem invalidateToken_spec_witness :
    lookupKV "a" (invalidateToken
      [("a", ⟨"u", 0, some "b"⟩), ("b", ⟨"u", 0, none⟩), ("c", ⟨"u", 0, none⟩)] "a") = none ∧
    lookupKV "b" (invalidateToken
      [("a", ⟨"u", 0, some "b"⟩), ("b", ⟨"u", 0, none⟩), ("c", ⟨"u", 0, none⟩)] "a") = none ∧
    lookupKV "c" (invalidateToken
      [("a", ⟨"u", 0, some "b"⟩), ("b", ⟨"u", 0, none⟩), ("c", ⟨"u", 0, none⟩)] "a") =
      some ⟨"u", 0, none⟩ ∧
    invalidateToken
      [("a", ⟨"u", 0, some "b"⟩), ("b", ⟨"u", 0, none⟩), ("c", ⟨"u", 0, none⟩)] "zz" =
      [("a", ⟨"u", 0, some "b"⟩), ("b", ⟨"u", 0, none⟩), ("c", ⟨"u", 0, none⟩)] := by
  refine ⟨(invalidateToken_spec _ "a" (by decide)).1 "a" (by decide),
    (invalidateToken_spec _ "a" (by decide)).1 "b" (by decide), ?_, ?_⟩
  · rw [(invalidateToken_spec _ "a" (by decide)).2.1 "c" (by decide)]
    decide
  · exact (invalidateToken_spec _ "zz" (by decide)).2.2 (by decide)

/-! ### C1: rate-limited requests -/

/-- C1: for every request whose client key has exhausted the limit (the
window has not elapsed and the stored count has reached `maxAttempts`), the
middleware halts — but with status 401 and body
`{error: "Too many attempts"}`: `tryAttempt` throws instead of returning
`false`, the `catch` block answers with 401 and the thrown message, and the
source's `429 {error: "Too many requests"}` branch is unreachable. -/
theorem authMiddleware_rate_exceeded (m : Nat) (w : Int) (reg : RateRegistry)
    (now : Int) (ip : String) (bearer : Option String) (authFn : String → Option String)
    (entry : RateEntry) (he : lookupKV ip reg = some entry)
    (hw : now - entry.timestamp ≤ w) (hc : m ≤ entry.count) :
    authMiddleware m w reg now ip bearer authFn = (.halted 401 "Too many attempts".data, reg) := by
  unfold authMiddleware tryAttempt
  rw [he]
  simp only [if_neg (not_lt.2 hw), if_pos hc]

/-- C1 (witness): `maxAttempts = 1`, `windowMs = 1000`; a second request
from the same address one millisecond after the first is answered with
401 `{error: "Too many attempts"}`, not 429 `{error: "Too many requests"}`. -/
theorem authMiddleware_rate_exceeded_witness :
    authMiddleware 1 1000 [("1.2.3.4", ⟨0, 1⟩)] 1 "1.2.3.4" none (fun _ => none) =
      (.halted 401 "Too many attempts".data, [("1.2.3.4", ⟨0, 1⟩)]) ∧
    (authMiddleware 1 1000 [] 0 "1.2.3.4" none (fun _ => none)).2 = [("1.2.3.4", ⟨0, 1⟩)] :=
  ⟨authMiddleware_rate_exceeded 1 1000 [("1.2.3.4", ⟨0, 1⟩)] 1 "1.2.3.4" none (fun _ => none)
    ⟨0, 1⟩ (by decide) (by decide) (by decide), by decide⟩

/-- The middleware can only ever halt with status 401: `tryAttempt` never
resolves to a falsy value, so the 429 rate-limit response in
`authMiddleware` is dead code. -/
theorem authMiddleware_halts_only_401 (m : Nat) (w : Int) (reg : RateRegistry)
    (now : Int) (ip : String) (bearer : Option String) (authFn : String → Option String)
    (st : Nat) (e : Str)
    (h : (authMiddleware m w reg now ip bearer authFn).1 = .halted st e) : st = 401 := by
  unfold authMiddleware tryAttempt at h
  cases hl : lookupKV ip reg with
  | none =>
    simp only [hl] at h
    simp at h
  | some entry =>
    simp only [hl] at h
    by_cases h1 : w < now - entry.timestamp
    · rw [if_pos h1] at h
      simp at h
    · rw [if_neg h1] at h
      by_cases h2 : m ≤ entry.count
      · rw [if_pos h2] at h
        simp at h
        omega
      · rw [if_neg h2] at h
        simp at h

/-! ### AuthDB state lemmas -/

theorem loadTokensDoc_saveTokensDoc_same (disk : List (String × UserDisk)) (u : String)
    (doc : List (String × DiskTokenEntry)) :
    loadTokensDoc (saveTokensDoc disk u doc) u = doc := by
  unfold saveTokensDoc loadTokensDoc
  cases h : lookupKV u disk <;> simp [lookupKV_setKV_self]

theorem loadInfo_saveTokensDoc_same (disk : List (String × UserDisk)) (u : String)
    (doc : List (String × DiskTokenEntry)) :
    loadInfo (saveTokensDoc disk u doc) u = loadInfo disk u := by
  unfold saveTokensDoc loadInfo
  cases h : lookupKV u disk <;> simp [h, lookupKV_setKV_self]

theorem loadInfo_dropTokensDoc_same (disk : List (String × UserDisk)) (u : String) :
    loadInfo (dropTokensDoc disk u) u = loadInfo disk u := by
  unfold dropTokensDoc loadInfo
  cases h : lookupKV u disk <;> simp [h, lookupKV_setKV_self]

theorem loadInfo_saveInfo_same (disk : List (String × UserDisk)) (u : String) (rec : UserRec) :
    loadInfo (saveInfo disk u rec) u = some rec := by
  unfold saveInfo loadInfo
  cases h : lookupKV u disk <;> simp [lookupKV_setKV_self]

theorem updateTokens_tokens (s : AuthState) (u : String) (pair : TokenPair) :
    (updateTokens s u pair).tokens =
      setKV pair.refreshToken ⟨pair.refreshExpiry, u, true⟩
        (setKV pair.accessToken ⟨pair.accessExpiry, u, false⟩ s.tokens) := rfl

theorem updateTokens_disk (s : AuthState) (u : String) (pair : TokenPair) :
    (updateTokens s u pair).disk =
      saveTokensDoc s.disk u
        (setKV pair.refreshToken ⟨pair.refreshExpiry, true⟩
          (setKV pair.accessToken ⟨pair.accessExpiry, false⟩ (loadTokensDoc s.disk u))) := rfl

theorem auth_found_valid (s : AuthState) (now : Int) (token : String) (meta : TokenMeta)
    (rec : UserRec) (h0 : token ≠ "") (hm : lookupKV token s.tokens = some meta)
    (hr : meta.isRefresh = false) (hv : isAccessValid now meta.time = true)
    (hg : getUser s meta.username = some rec) :
    auth s now token = (some rec, s) := by
  unfold auth
  rw [if_neg h0]
  simp only [hm, hr, hv, hg, Bool.false_eq_true, if_false, Bool.not_true]

theorem auth_found_access_expired (s : AuthState) (now : Int) (token : String)
    (meta : TokenMeta) (h0 : token ≠ "") (hm : lookupKV token s.tokens = some meta)
    (hr : meta.isRefresh = false) (hv : isAccessValid now meta.time = false) :
    auth s now token = (none, deleteToken s token) := by
  unfold auth
  rw [if_neg h0]
  simp only [hm, hr, hv, Bool.false_eq_true, if_false, Bool.not_false, if_true]

theorem deleteToken_found (s : AuthState) (token : String) (meta : TokenMeta)
    (hm : lookupKV token s.tokens = some meta)
    (hdoc : lookupKV token (loadTokensDoc s.disk meta.username) ≠ none) :
    deleteToken s token =
      { tokens := eraseKV token s.tokens,
        disk := saveTokensDoc s.disk meta.username
          (eraseKV token (loadTokensDoc s.disk meta.username)) } := by
  unfold deleteToken
  simp only [hm]
  cases hd : lookupKV token (loadTokensDoc s.disk meta.username) with
  | none => exact absurd hd hdoc
  | some e => rfl

/-! ### C2: access-token lifetime -/

/-- C2 (counterexample): alice's pair is minted and stored at time `t = 0`,
so with access expiry 3,600,000 ms; authenticated at 5,400,000 ms — more
than 1 hour after `t` — the claim demands the token-expired outcome with
deletion, but `auth` returns alice and leaves the state untouched: the
stored `time` is the *expiry* `t + 1h`, and `isAccessValid` adds the 1-hour
lifetime to it a second time. -/
theorem auth_valid_beyond_one_hour :
    (0 + ACCESS_TOKEN_LIFETIME : Int) < 5400000 ∧
    auth (updateTokens aliceState "alice" (createTokenPair 0 "acc" "ref")) 5400000 "acc" =
      (some aliceRec, updateTokens aliceState "alice" (createTokenPair 0 "acc" "ref")) := by
  decide

/-- C2 (amended): a token minted by `createTokenPair` at time `t` and stored
via `updateTokens` authenticates as the stored subject whenever `auth` runs
before `t + 2` hours (twice the nominal 1-hour lifetime, because the stored
`time` is the expiry `t + 1h` and `isAccessValid` adds the lifetime to it
again), and from `t + 2` hours on fails and deletes the token from the
in-memory map and from the user's `tokens.json`. -/
theorem auth_access_two_hour_lifetime (s : AuthState) (u : String) (t now : Int)
    (a r : String) (rec : UserRec)
    (hndm : NodupKeys s.tokens) (hndd : NodupKeys (loadTokensDoc s.disk u))
    (har : a ≠ r) (ha : a ≠ "") (hrec : loadInfo s.disk u = some rec) :
    (now < t + 2 * ACCESS_TOKEN_LIFETIME →
      auth (updateTokens s u (createTokenPair t a r)) now a =
        (some rec, updateTokens s u (createTokenPair t a r))) ∧
    (t + 2 * ACCESS_TOKEN_LIFETIME ≤ now →
      (auth (updateTokens s u (createTokenPair t a r)) now a).1 = none ∧
      lookupKV a (auth (updateTokens s u (createTokenPair t a r)) now a).2.tokens = none ∧
      lookupKV a
        (loadTokensDoc (auth (updateTokens s u (createTokenPair t a r)) now a).2.disk u) =
        none) := by
  set s1 := updateTokens s u (createTokenPair t a r) with hs1
  have hmem : lookupKV a s1.tokens = some ⟨t + ACCESS_TOKEN_LIFETIME, u, false⟩ := by
    rw [hs1, updateTokens_tokens]
    show lookupKV a (setKV r ⟨t + REFRESH_TOKEN_LIFETIME, u, true⟩
      (setKV a ⟨t + ACCESS_TOKEN_LIFETIME, u, false⟩ s.tokens)) = _
    rw [lookupKV_setKV_ne _ _ _ _ har, lookupKV_setKV_self]
  constructor
  · intro hlt
    have hv : isAccessValid now (t + ACCESS_TOKEN_LIFETIME) = true := by
      simp only [isAccessValid, decide_eq_true_eq]
      omega
    have hg : getUser s1 u = some rec := by
      unfold getUser
      rw [hs1, updateTokens_disk, loadInfo_saveTokensDoc_same]
      exact hrec
    exact auth_found_valid s1 now a ⟨t + ACCESS_TOKEN_LIFETIME, u, false⟩ rec ha hmem rfl hv hg
  · intro hge
    have hv : isAccessValid now (t + ACCESS_TOKEN_LIFETIME) = false := by
      simp only [isAccessValid, decide_eq_false_iff_not]
      omega
    have hauth := auth_found_access_expired s1 now a
      ⟨t + ACCESS_TOKEN_LIFETIME, u, false⟩ ha hmem rfl hv
    have hdocl : loadTokensDoc s1.disk u =
        setKV r ⟨t + REFRESH_TOKEN_LIFETIME, true⟩
          (setKV a ⟨t + ACCESS_TOKEN_LIFETIME, false⟩ (loadTokensDoc s.disk u)) := by
      rw [hs1, updateTokens_disk, loadTokensDoc_saveTokensDoc_same]
      rfl
    have hdoca : lookupKV a (loadTokensDoc s1.disk u) =
        some ⟨t + ACCESS_TOKEN_LIFETIME, false⟩ := by
      rw [hdocl, lookupKV_setKV_ne _ _ _ _ har, lookupKV_setKV_self]
    have hdel : deleteToken s1 a =
        { tokens := eraseKV a s1.tokens,
          disk := saveTokensDoc s1.disk u (eraseKV a (loadTokensDoc s1.disk u)) } :=
      deleteToken_found s1 a ⟨t + ACCESS_TOKEN_LIFETIME, u, false⟩ hmem
        (by rw [show (⟨t + ACCESS_TOKEN_LIFETIME, u, false⟩ : TokenMeta).username = u from rfl,
              hdoca]; simp)
    have hndm1 : NodupKeys s1.tokens := by
      rw [hs1, updateTokens_tokens]
      exact nodupKeys_setKV _ _ _ (nodupKeys_setKV _ _ _ hndm)
    have hndd1 : NodupKeys (loadTokensDoc s1.disk u) := by
      rw [hdocl]
      exact nodupKeys_setKV _ _ _ (nodupKeys_setKV _ _ _ hndd)
    refine ⟨by rw [hauth], ?_, ?_⟩
    · rw [hauth, hdel]
      exact lookupKV_eraseKV_self a _ hndm1
    · rw [hauth, hdel]
      show lookupKV a (loadTokensDoc (saveTokensDoc s1.disk u
        (eraseKV a (loadTokensDoc s1.disk u))) u) = none
      rw [loadTokensDoc_saveTokensDoc_same]
      exact lookupKV_eraseKV_self a _ hndd1

/-- C2 (witness): alice's token minted at 0 authenticates at 5,400,000 ms
and is gone (map and document) after an `auth` at 7,200,000 ms. -/
theorem auth_access_two_hour_lifetime_witness :
    auth (updateTokens aliceState "alice" (createTokenPair 0 "acc" "ref")) 5400000 "acc" =
      (some aliceRec, updateTokens aliceState "alice" (createTokenPair 0 "acc" "ref")) ∧
    (auth (updateTokens aliceState "alice" (createTokenPair 0 "acc" "ref")) 7200000 "acc").1 =
      none ∧
    lookupKV "acc"
      (auth (updateTokens aliceState "alice" (createTokenPair 0 "acc" "ref")) 7200000
        "acc").2.tokens = none := by
  refine ⟨(auth_access_two_hour_lifetime aliceState "alice" 0 5400000 "acc" "ref" aliceRec
      (by decide) (by decide) (by decide) (by decide) (by decide)).1 (by decide), ?_, ?_⟩
  · exact ((auth_access_two_hour_lifetime aliceState "alice" 0 7200000 "acc" "ref" aliceRec
      (by decide) (by decide) (by decide) (by decide) (by decide)).2 (by decide)).1
  · exact ((auth_access_two_hour_lifetime aliceState "alice" 0 7200000 "acc" "ref" aliceRec
      (by decide) (by decide) (by decide) (by decide) (by decide)).2 (by decide)).2.1

/-! ### C4: signin -/

/-- C4: `handleSignin` answers 404 `{error: "Invalid password or username"}`
for an unknown user, 403 for an unverified one, 401 with the same body text
on a password-hash mismatch, and otherwise 200 with the freshly minted
pair, the pair stored via `updateTokens` and the new refresh token
registered (with no predecessor) in the rotation registry. -/
theorem handleSignin_spec (s : AuthState) (reg : Registry) (username password : String)
    (a r : String) (now : Int) (hash : String → String) :
    (getUser s username = none →
      handleSignin s reg username password a r now hash =
        ⟨404, .err "Invalid password or username".data, s, reg⟩) ∧
    (∀ user, getUser s username = some user → user.verified = false →
      handleSignin s reg username password a r now hash =
        ⟨403, .err "Account not verified".data, s, reg⟩) ∧
    (∀ user, getUser s username = some user → user.verified = true →
      user.passwordHash ≠ hash password →
      handleSignin s reg username password a r now hash =
        ⟨401, .err "Invalid password or username".data, s, reg⟩) ∧
    (∀ user, getUser s username = some user → user.verified = true →
      user.passwordHash = hash password →
      handleSignin s reg username password a r now hash =
        ⟨200, .tokenPairBody a r, updateTokens s username (createTokenPair now a r),
          registerToken reg r username now none⟩ ∧
      lookupKV r (handleSignin s reg username password a r now hash).registry =
        some ⟨username, now, none⟩) := by
  refine ⟨fun h => ?_, fun user h hv => ?_, fun user h hv hp => ?_, fun user h hv hp => ?_⟩
  · unfold handleSignin
    rw [h]
  · simp [handleSignin, h, hv]
  · simp [handleSignin, h, hv, hp]
  · have heq : handleSignin s reg username password a r now hash =
        ⟨200, .tokenPairBody a r, updateTokens s username (createTokenPair now a r),
          registerToken reg r username now none⟩ := by
      simp [handleSignin, h, hv, hp, createTokenPair]
    refine ⟨heq, ?_⟩
    rw [heq]
    show lookupKV r (registerToken reg r username now none) = some ⟨username, now, none⟩
    unfold registerToken
    exact lookupKV_setKV_self _ _ _

/-- C4 (witness): alice (verified, password hash `h`) signs in with the
matching password: 200 with the fresh pair and the refresh token registered. -/
theorem handleSignin_spec_witness :
    handleSignin aliceState [] "alice" "p" "acc" "ref" 5 (fun _ => "h") =
      ⟨200, .tokenPairBody "acc" "ref",
        updateTokens aliceState "alice" (createTokenPair 5 "acc" "ref"),
        registerToken [] "ref" "alice" 5 none⟩ ∧
    lookupKV "ref" (handleSignin aliceState [] "alice" "p" "acc" "ref" 5
      (fun _ => "h")).registry = some ⟨"alice", 5, none⟩ :=
  (handleSignin_spec aliceState [] "alice" "p" "acc" "ref" 5 (fun _ => "h")).2.2.2 aliceRec
    (by decide) (by decide) (by decide)

/-! ### C10: password reset ignores the verified flag -/

/-- `auth` on a freshly stored pair, inside the access validity window:
returns the stored subject. -/
theorem auth_of_updateTokens (s2 : AuthState) (u : String) (now now2 : Int)
    (a r : String) (rec1 : UserRec) (ha : a ≠ "") (har : a ≠ r)
    (hlt : now2 < now + 2 * ACCESS_TOKEN_LIFETIME)
    (hinfo : loadInfo s2.disk u = some rec1) :
    auth (updateTokens s2 u (createTokenPair now a r)) now2 a =
      (some rec1, updateTokens s2 u (createTokenPair now a r)) := by
  have hmem : lookupKV a (updateTokens s2 u (createTokenPair now a r)).tokens =
      some ⟨now + ACCESS_TOKEN_LIFETIME, u, false⟩ := by
    rw [updateTokens_tokens]
    show lookupKV a (setKV r ⟨now + REFRESH_TOKEN_LIFETIME, u, true⟩
      (setKV a ⟨now + ACCESS_TOKEN_LIFETIME, u, false⟩ s2.tokens)) = _
    rw [lookupKV_setKV_ne _ _ _ _ har, lookupKV_setKV_self]
  have hv : isAccessValid now2 (now + ACCESS_TOKEN_LIFETIME) = true := by
    simp only [isAccessValid, decide_eq_true_eq]
    omega
  have hg : getUser (updateTokens s2 u (createTokenPair now a r)) u = some rec1 := by
    unfold getUser
    rw [updateTokens_disk, loadInfo_saveTokensDoc_same]
    exact hinfo
  exact auth_found_valid _ now2 a ⟨now + ACCESS_TOKEN_LIFETIME, u, false⟩ rec1 ha hmem rfl hv hg

/-- The successful path of `handleResetPassword`, in full. -/
theorem handleResetPassword_success (s : AuthState) (reg : Registry) (u : String)
    (code pw a r : String) (now : Int) (hash : String → String) (flag : Bool)
    (rec : UserRec) (hrec : getUser s u = some rec) (hcode : rec.resetCode = some code)
    (hname : rec.name = u) (hvalid : validUsername u = true) :
    handleResetPassword s reg u code pw a r now hash flag =
      .ok ⟨200, .msgTokens "Password reset successful".data a r,
        updateTokens
          (if flag then
            clearTokens
              { s with disk := saveInfo s.disk rec.name (resetUser rec hash pw now) }
              rec.name
          else
            { s with disk := saveInfo s.disk rec.name (resetUser rec hash pw now) })
          u (createTokenPair now a r),
        registerToken (if flag then clearUserTokensReg reg rec.name else reg)
          r u now none⟩ := by
  have hvn : validUsername rec.name = true := by
    rw [hname]
    exact hvalid
  unfold handleResetPassword
  simp only [hrec]
  rw [if_neg (by rw [hcode]; simp)]
  unfold saveUser
  simp only [resetUser]
  rw [if_neg (by simp [hvn])]
  cases flag <;> rfl

/-- C10: for an existing user whose stored `resetCode` equals the presented
code — with no assumption whatsoever on the `verified` flag, so in
particular for an unverified account — `PUT /auth/forgot/:username` answers
200 with a freshly minted pair, and that access token then authenticates as
the user via bearer auth: neither `handleResetPassword` nor `auth` consults
`verified`. -/
theorem resetPassword_ignores_verified (s : AuthState) (reg : Registry) (u : String)
    (code pw a r : String) (now now2 : Int) (hash : String → String) (flag : Bool)
    (rec : UserRec) (hrec : getUser s u = some rec) (hcode : rec.resetCode = some code)
    (hname : rec.name = u) (hvalid : validUsername u = true)
    (ha : a ≠ "") (har : a ≠ r) (hlt : now2 < now + 2 * ACCESS_TOKEN_LIFETIME) :
    ∃ res, handleResetPassword s reg u code pw a r now hash flag = .ok res ∧
      res.status = 200 ∧
      res.body = .msgTokens "Password reset successful".data a r ∧
      (auth res.state now2 a).1 = some (resetUser rec hash pw now) := by
  have hres := handleResetPassword_success s reg u code pw a r now hash flag rec
    hrec hcode hname hvalid
  refine ⟨_, hres, rfl, rfl, ?_⟩
  have hinfo : loadInfo
      (if flag then
        clearTokens
          { s with disk := saveInfo s.disk rec.name (resetUser rec hash pw now) }
          rec.name
      else
        { s with disk := saveInfo s.disk rec.name (resetUser rec hash pw now) }).disk
      u = some (resetUser rec hash pw now) := by
    cases flag
    · show loadInfo (saveInfo s.disk rec.name (resetUser rec hash pw now)) u = _
      rw [hname, loadInfo_saveInfo_same]
    · show loadInfo (dropTokensDoc
        (saveInfo s.disk rec.name (resetUser rec hash pw now)) rec.name) u = _
      rw [hname, loadInfo_dropTokensDoc_same, loadInfo_saveInfo_same]
  rw [show (⟨200, .msgTokens "Password reset successful".data a r, _, _⟩ : HandlerResult).state
    = _ from rfl]
  rw [auth_of_updateTokens _ u now now2 a r _ ha har hlt hinfo]

/-- C10 (witness): bob is unverified (`verified = false`) but holds reset
code `123456`; presenting it yields 200 with the pair `acc`/`ref`, and
`acc` then authenticates as bob with the new password hash. -/
theorem resetPassword_ignores_verified_witness :
    ∃ res, handleResetPassword bobState [] "bob" "123456" "npw" "acc" "ref" 0
        (fun _ => "h1") true = .ok res ∧
      res.status = 200 ∧
      res.body = .msgTokens "Password reset successful".data "acc" "ref" ∧
      (auth res.state 10 "acc").1 = some (resetUser bobRec (fun _ => "h1") "npw" 0) :=
  resetPassword_ignores_verified bobState [] "bob" "123456" "npw" "acc" "ref" 0 10
    (fun _ => "h1") true bobRec (by decide) (by decide) (by decide) (by decide)
    (by decide) (by decide) (by decide)

/-! ### More association-list lemmas, for the C3 counting arguments -/

theorem lookupKV_cons {α : Type} (k a1 : String) (a2 : α) (t : List (String × α)) :
    lookupKV k ((a1, a2) :: t) = if a1 = k then some a2 else lookupKV k t := rfl

theorem setKV_cons {α : Type} (k a1 : String) (v a2 : α) (t : List (String × α)) :
    setKV k v ((a1, a2) :: t) = if a1 = k then (k, v) :: t else (a1, a2) :: setKV k v t := rfl

theorem lookupKV_some_mem {α : Type} (k : String) (v : α) :
    ∀ l : List (String × α), lookupKV k l = some v → (k, v) ∈ l := by
  intro l
  induction l with
  | nil => intro h; simp [lookupKV] at h
  | cons a t ih =>
    obtain ⟨a1, a2⟩ := a
    intro h
    rw [lookupKV_cons] at h
    by_cases h1 : a1 = k
    · rw [if_pos h1] at h
      obtain rfl := Option.some.inj h
      exact h1 ▸ List.mem_cons_self _ _
    · rw [if_neg h1] at h
      exact List.mem_cons_of_mem _ (ih h)

theorem lookupKV_isSome_iff_mem_keys {α : Type} (k : String) (l : List (String × α)) :
    (lookupKV k l).isSome = true ↔ k ∈ l.map Prod.fst := by
  cases h : lookupKV k l with
  | none =>
    simp only [Option.isSome_none, Bool.false_eq_true, false_iff]
    exact (lookupKV_eq_none_iff k l).1 h
  | some v =>
    simp only [Option.isSome_some, true_iff]
    exact List.mem_map.2 ⟨(k, v), lookupKV_some_mem k v l h, rfl⟩

theorem mem_setKV_weak {α : Type} (q : String × α) (k : String) (v : α) :
    ∀ l : List (String × α), q ∈ setKV k v l → q = (k, v) ∨ q ∈ l := by
  intro l
  induction l with
  | nil => intro h; simpa [setKV] using h
  | cons a t ih =>
    obtain ⟨a1, a2⟩ := a
    intro h
    rw [setKV_cons] at h
    by_cases h1 : a1 = k
    · rw [if_pos h1] at h
      rcases List.mem_cons.1 h with h | h
      · exact Or.inl h
      · exact Or.inr (List.mem_cons_of_mem _ h)
    · rw [if_neg h1] at h
      rcases List.mem_cons.1 h with h | h
      · exact Or.inr (h ▸ List.mem_cons_self _ _)
      · rcases ih h with h2 | h2
        · exact Or.inl h2
        · exact Or.inr (List.mem_cons_of_mem _ h2)

theorem mem_setKV_iff {α : Type} (q : String × α) (k : String) (v : α) :
    ∀ l : List (String × α), NodupKeys l →
      (q ∈ setKV k v l ↔ q = (k, v) ∨ (q ∈ l ∧ q.1 ≠ k)) := by
  intro l
  induction l with
  | nil =>
    intro _
    simp [setKV]
  | cons a t ih =>
    obtain ⟨a1, a2⟩ := a
    intro hnd
    have hsp : a1 ∉ t.map Prod.fst ∧ NodupKeys t := by
      simpa [NodupKeys] using hnd
    rw [setKV_cons]
    by_cases h1 : a1 = k
    · rw [if_pos h1]
      subst h1
      constructor
      · intro h
        rcases List.mem_cons.1 h with rfl | hq
        · exact Or.inl rfl
        · refine Or.inr ⟨List.mem_cons_of_mem _ hq, ?_⟩
          intro hk
          exact hsp.1 (hk ▸ List.mem_map_of_mem Prod.fst hq)
      · rintro (rfl | ⟨hq, hqk⟩)
        · exact List.mem_cons_self _ _
        · rcases List.mem_cons.1 hq with rfl | hq2
          · exact absurd rfl hqk
          · exact List.mem_cons_of_mem _ hq2
    · rw [if_neg h1]
      constructor
      · intro h
        rcases List.mem_cons.1 h with rfl | hq
        · exact Or.inr ⟨List.mem_cons_self _ _, h1⟩
        · rcases (ih hsp.2).1 hq with h2 | ⟨h2, h3⟩
          · exact Or.inl h2
          · exact Or.inr ⟨List.mem_cons_of_mem _ h2, h3⟩
      · rintro (rfl | ⟨hq, hqk⟩)
        · exact List.mem_cons_of_mem _ ((ih hsp.2).2 (Or.inl rfl))
        · rcases List.mem_cons.1 hq with rfl | hq2
          · exact List.mem_cons_self _ _
          · exact List.mem_cons_of_mem _ ((ih hsp.2).2 (Or.inr ⟨hq2, hqk⟩))

theorem countP_setKV_none {α : Type} (p : String × α → Bool) (k : String) (v : α) :
    ∀ l : List (String × α), lookupKV k l = none →
      (setKV k v l).countP p = l.countP p + (if p (k, v) then 1 else 0) := by
  intro l
  induction l with
  | nil =>
    intro _
    simp [setKV, List.countP_cons]
  | cons a t ih =>
    obtain ⟨a1, a2⟩ := a
    intro h
    rw [lookupKV_cons] at h
    by_cases h1 : a1 = k
    · rw [if_pos h1] at h
      cases h
    · rw [if_neg h1] at h
      rw [setKV_cons, if_neg h1, List.countP_cons, List.countP_cons, ih h]
      omega

theorem countP_setKV_some {α : Type} (p : String × α → Bool) (k : String) (v v0 : α) :
    ∀ l : List (String × α), NodupKeys l → lookupKV k l = some v0 →
      (setKV k v l).countP p + (if p (k, v0) then 1 else 0) =
        l.countP p + (if p (k, v) then 1 else 0) := by
  intro l
  induction l with
  | nil => intro _ h; simp [lookupKV] at h
  | cons a t ih =>
    obtain ⟨a1, a2⟩ := a
    intro hnd h
    have hsp : a1 ∉ t.map Prod.fst ∧ NodupKeys t := by
      simpa [NodupKeys] using hnd
    rw [lookupKV_cons] at h
    by_cases h1 : a1 = k
    · rw [if_pos h1] at h
      obtain rfl := Option.some.inj h
      rw [setKV_cons, if_pos h1, List.countP_cons, List.countP_cons]
      subst h1
      omega
    · rw [if_neg h1] at h
      rw [setKV_cons, if_neg h1, List.countP_cons, List.countP_cons]
      have hih := ih hsp.2 h
      omega

theorem lookupKV_filter_of_none {α : Type} (k : String) (q : String × α → Bool)
    (l : List (String × α)) (h : lookupKV k l = none) :
    lookupKV k (l.filter q) = none := by
  rw [lookupKV_eq_none_iff] at h ⊢
  intro hmem
  rcases List.mem_map.1 hmem with ⟨entry, hentry, hfst⟩
  exact h (List.mem_map.2 ⟨entry, List.mem_of_mem_filter hentry, hfst⟩)

theorem lookupKV_filter {α : Type} (k : String) (q : String × α → Bool) :
    ∀ l : List (String × α), NodupKeys l →
      lookupKV k (l.filter q) =
        (match lookupKV k l with
         | none => none
         | some v => if q (k, v) then some v else none) := by
  intro l
  induction l with
  | nil => intro _; rfl
  | cons a t ih =>
    obtain ⟨a1, a2⟩ := a
    intro hnd
    have hsp : a1 ∉ t.map Prod.fst ∧ NodupKeys t := by
      simpa [NodupKeys] using hnd
    rw [List.filter_cons, lookupKV_cons]
    by_cases h1 : a1 = k
    · rw [if_pos h1]
      have hnone : lookupKV k t = none := by
        rw [lookupKV_eq_none_iff]
        exact h1 ▸ hsp.1
      cases hq : q (a1, a2) with
      | true =>
        rw [if_pos rfl, lookupKV_cons, if_pos h1]
        rw [h1] at hq
        simp [hq]
      | false =>
        simp only [Bool.false_eq_true, if_false]
        rw [lookupKV_filter_of_none _ _ _ hnone]
        rw [h1] at hq
        simp [hq]
    · rw [if_neg h1]
      cases hq : q (a1, a2) with
      | true =>
        rw [if_pos rfl, lookupKV_cons, if_neg h1]
        exact ih hsp.2
      | false =>
        simp only [Bool.false_eq_true, if_false]
        exact ih hsp.2

/-! ### Coherence extraction lemmas -/

theorem holder_owner_of_docsCoherent (s : AuthState) (hdocs : docsCoherentB s = true)
    (t w : String) (ud : UserDisk) (hmem : (w, ud) ∈ s.disk)
    (hholds : holdsTok t (w, ud) = true) :
    ∃ meta, lookupKV t s.tokens = some meta ∧ meta.username = w := by
  have hall := List.all_eq_true.1 hdocs (w, ud) hmem
  unfold holdsTok at hholds
  cases hud : ud.tokensDoc with
  | none =>
    rw [hud] at hholds
    cases hholds
  | some doc =>
    rw [hud] at hholds
    have hall2 : (doc.all fun q =>
        match lookupKV q.1 s.tokens with
        | none => false
        | some meta => meta.username == w) = true := by
      have : ud.tokensDoc = some doc := hud
      simp only [this] at hall
      exact hall
    have hholds2 : (lookupKV t doc).isSome = true := hholds
    cases he : lookupKV t doc with
    | none => rw [he] at hholds2; cases hholds2
    | some e =>
      have hte : (t, e) ∈ doc := lookupKV_some_mem t e doc he
      have hq := List.all_eq_true.1 hall2 (t, e) hte
      cases hm : lookupKV t s.tokens with
      | none => rw [hm] at hq; cases hq
      | some meta =>
        rw [hm] at hq
        exact ⟨meta, rfl, by simpa using hq⟩

theorem owner_holds_of_ownersCoherent (s : AuthState) (hown : ownersCoherentB s = true)
    (t : String) (meta : TokenMeta) (hm : lookupKV t s.tokens = some meta) :
    ∃ ud, lookupKV meta.username s.disk = some ud ∧ holdsTok t (meta.username, ud) = true := by
  have hall := List.all_eq_true.1 hown (t, meta) (lookupKV_some_mem t meta s.tokens hm)
  cases hud : lookupKV meta.username s.disk with
  | none => rw [hud] at hall; cases hall
  | some ud =>
    rw [hud] at hall
    refine ⟨ud, rfl, ?_⟩
    unfold holdsTok
    exact hall

theorem no_holder_of_mem_none (s : AuthState) (hdocs : docsCoherentB s = true)
    (t : String) (hm : lookupKV t s.tokens = none) :
    ∀ p ∈ s.disk, holdsTok t p = false := by
  intro p hp
  obtain ⟨w, ud⟩ := p
  cases hh : holdsTok t (w, ud) with
  | false => rfl
  | true =>
    obtain ⟨meta, hmeta, -⟩ := holder_owner_of_docsCoherent s hdocs t w ud hp hh
    rw [hm] at hmeta
    cases hmeta

/-! ### C3: counting holders through the disk operations -/

theorem countP_saveTokensDoc (disk : List (String × UserDisk)) (u : String)
    (doc : List (String × DiskTokenEntry)) (t : String) (hndd : NodupKeys disk) :
    (saveTokensDoc disk u doc).countP (holdsTok t) +
      (if holdsTok t (u, (lookupKV u disk).getD ⟨none, none⟩) then 1 else 0) =
      disk.countP (holdsTok t) + (if (lookupKV t doc).isSome then 1 else 0) := by
  unfold saveTokensDoc
  cases hud : lookupKV u disk with
  | none =>
    rw [countP_setKV_none _ _ _ _ hud]
    simp [holdsTok]
  | some ud =>
    have h := countP_setKV_some (holdsTok t) u ⟨ud.info, some doc⟩ ud disk hndd hud
    simp only [Option.getD_some]
    rw [show holdsTok t (u, ⟨ud.info, some doc⟩) = (lookupKV t doc).isSome from rfl] at h
    exact h

theorem countP_dropTokensDoc (disk : List (String × UserDisk)) (u : String) (t : String)
    (hndd : NodupKeys disk) :
    (dropTokensDoc disk u).countP (holdsTok t) +
      (if holdsTok t (u, (lookupKV u disk).getD ⟨none, none⟩) then 1 else 0) =
      disk.countP (holdsTok t) := by
  unfold dropTokensDoc
  cases hud : lookupKV u disk with
  | none => simp [holdsTok]
  | some ud =>
    have h := countP_setKV_some (holdsTok t) u ⟨ud.info, none⟩ ud disk hndd hud
    simp only [Option.getD_some]
    rw [show holdsTok t (u, ⟨ud.info, none⟩) = false from rfl] at h
    simpa using h

theorem countP_dropTokensDoc_zero (disk : List (String × UserDisk)) (u : String) (t : String)
    (h0 : disk.countP (holdsTok t) = 0) :
    (dropTokensDoc disk u).countP (holdsTok t) = 0 := by
  apply List.countP_eq_zero.2
  intro p hp
  unfold dropTokensDoc at hp
  cases hud : lookupKV u disk with
  | none =>
    rw [hud] at hp
    exact List.countP_eq_zero.1 h0 p hp
  | some ud =>
    rw [hud] at hp
    rcases mem_setKV_weak p u ⟨ud.info, none⟩ disk hp with rfl | hp2
    · simp [holdsTok]
    · exact List.countP_eq_zero.1 h0 p hp2

theorem nodupKeys_dropTokensDoc (disk : List (String × UserDisk)) (u : String)
    (hndd : NodupKeys disk) : NodupKeys (dropTokensDoc disk u) := by
  unfold dropTokensDoc
  cases lookupKV u disk with
  | none => exact hndd
  | some ud => exact nodupKeys_setKV _ _ _ hndd

/-- The old holder indicator vanishes when nobody holds the token. -/
theorem old_holder_zero (disk : List (String × UserDisk)) (u : String) (t : String)
    (h0 : disk.countP (holdsTok t) = 0) :
    (if holdsTok t (u, (lookupKV u disk).getD ⟨none, none⟩) then 1 else 0) = 0 := by
  cases hud : lookupKV u disk with
  | none => simp [holdsTok]
  | some ud =>
    have := List.countP_eq_zero.1 h0 (u, ud) (lookupKV_some_mem _ _ _ hud)
    simp [this]

theorem updateTokens_invariant (s : AuthState) (u : String) (pair : TokenPair)
    (hinv : tokenInvariant s) (hndd : NodupKeys s.disk)
    (hfam : lookupKV pair.accessToken s.tokens = none)
    (hfrm : lookupKV pair.refreshToken s.tokens = none)
    (hfad : s.disk.countP (holdsTok pair.accessToken) = 0)
    (hfrd : s.disk.countP (holdsTok pair.refreshToken) = 0)
    (har : pair.accessToken ≠ pair.refreshToken) :
    tokenInvariant (updateTokens s u pair) := by
  intro t
  rw [updateTokens_tokens, updateTokens_disk]
  have hsave := countP_saveTokensDoc s.disk u
    (setKV pair.refreshToken ⟨pair.refreshExpiry, true⟩
      (setKV pair.accessToken ⟨pair.accessExpiry, false⟩ (loadTokensDoc s.disk u))) t hndd
  by_cases htr : t = pair.refreshToken
  · rw [htr] at hsave ⊢
    rw [lookupKV_setKV_self]
    have hnew : (lookupKV pair.refreshToken (setKV pair.refreshToken ⟨pair.refreshExpiry, true⟩
        (setKV pair.accessToken ⟨pair.accessExpiry, false⟩
          (loadTokensDoc s.disk u)))).isSome = true := by
      rw [lookupKV_setKV_self]
      rfl
    rw [hnew, if_pos rfl, hfrd, old_holder_zero s.disk u pair.refreshToken hfrd] at hsave
    simp only [Option.isSome_some, true_iff]
    omega
  · by_cases hta : t = pair.accessToken
    · rw [hta] at htr hsave ⊢
      rw [lookupKV_setKV_ne _ _ _ _ htr, lookupKV_setKV_self]
      have hnew : (lookupKV pair.accessToken (setKV pair.refreshToken ⟨pair.refreshExpiry, true⟩
          (setKV pair.accessToken ⟨pair.accessExpiry, false⟩
            (loadTokensDoc s.disk u)))).isSome = true := by
        rw [lookupKV_setKV_ne _ _ _ _ htr, lookupKV_setKV_self]
        rfl
      rw [hnew, if_pos rfl, hfad, old_holder_zero s.disk u pair.accessToken hfad] at hsave
      simp only [Option.isSome_some, true_iff]
      omega
    · rw [lookupKV_setKV_ne _ _ _ _ htr, lookupKV_setKV_ne _ _ _ _ hta]
      have hnew : lookupKV t (setKV pair.refreshToken ⟨pair.refreshExpiry, true⟩
          (setKV pair.accessToken ⟨pair.accessExpiry, false⟩ (loadTokensDoc s.disk u))) =
          lookupKV t (loadTokensDoc s.disk u) := by
        rw [lookupKV_setKV_ne _ _ _ _ htr, lookupKV_setKV_ne _ _ _ _ hta]
      rw [hnew] at hsave
      have hind : (if holdsTok t (u, (lookupKV u s.disk).getD ⟨none, none⟩) then 1 else 0) =
          (if (lookupKV t (loadTokensDoc s.disk u)).isSome = true then 1 else 0) := by
        cases hud : lookupKV u s.disk with
        | none =>
          unfold loadTokensDoc
          rw [hud]
          simp [holdsTok, lookupKV]
        | some ud =>
          unfold loadTokensDoc
          rw [hud]
          cases hd : ud.tokensDoc with
          | none => simp [holdsTok, hd, lookupKV]
          | some doc => simp [holdsTok, hd]
      rw [hind] at hsave
      have hcount : (saveTokensDoc s.disk u
          (setKV pair.refreshToken ⟨pair.refreshExpiry, true⟩
            (setKV pair.accessToken ⟨pair.accessExpiry, false⟩
              (loadTokensDoc s.disk u)))).countP (holdsTok t) =
          s.disk.countP (holdsTok t) := by omega
      rw [hcount]
      exact hinv t

theorem clearTokens_invariant (s : AuthState) (u : String)
    (hinv : tokenInvariant s) (hdocs : docsCoherentB s = true)
    (hndm : NodupKeys s.tokens) (hndd : NodupKeys s.disk) :
    tokenInvariant (clearTokens s u) := by
  intro t
  have hmem2 : (clearTokens s u).tokens =
      s.tokens.filter (fun p => !(p.2.username == u)) := rfl
  have hdisk2 : (clearTokens s u).disk = dropTokensDoc s.disk u := rfl
  rw [hmem2, hdisk2]
  have hdrop := countP_dropTokensDoc s.disk u t hndd
  cases hm : lookupKV t s.tokens with
  | none =>
    rw [lookupKV_filter_of_none _ _ _ hm]
    simp only [Option.isSome_none, Bool.false_eq_true, false_iff]
    have hall0 : s.disk.countP (holdsTok t) = 0 := by
      apply List.countP_eq_zero.2
      intro p hp
      have := no_holder_of_mem_none s hdocs t hm p hp
      simp [this]
    omega
  | some meta =>
    rw [lookupKV_filter t _ s.tokens hndm, hm]
    by_cases hmu : meta.username = u
    · show (if (!(meta.username == u)) = true then some meta else (none : Option TokenMeta)).isSome
          = true ↔ (dropTokensDoc s.disk u).countP (holdsTok t) = 1
      have hqf : (!(meta.username == u)) = false := by simp [hmu]
      rw [hqf]
      simp only [Bool.false_eq_true, if_false, Option.isSome_none, false_iff]
      have hc0 : (dropTokensDoc s.disk u).countP (holdsTok t) = 0 := by
        apply List.countP_eq_zero.2
        intro p hp hh
        obtain ⟨w, udw⟩ := p
        unfold dropTokensDoc at hp
        cases hud : lookupKV u s.disk with
        | none =>
          rw [hud] at hp
          have hp2 : (w, udw) ∈ s.disk := hp
          obtain ⟨meta2, hm2, hmu2⟩ := holder_owner_of_docsCoherent s hdocs t w udw hp2 hh
          rw [hm] at hm2
          obtain rfl := Option.some.inj hm2
          have hwu : w = u := by rw [← hmu2, hmu]
          exact (lookupKV_eq_none_iff u s.disk).1 hud
            (List.mem_map.2 ⟨(w, udw), hp2, hwu⟩)
        | some ud =>
          rw [hud] at hp
          have hp2 : (w, udw) ∈ setKV u ⟨ud.info, none⟩ s.disk := hp
          rcases (mem_setKV_iff (w, udw) u ⟨ud.info, none⟩ s.disk hndd).1 hp2 with
            heq | ⟨hp3, hp4⟩
          · rw [heq] at hh
            simp [holdsTok] at hh
          · obtain ⟨meta2, hm2, hmu2⟩ := holder_owner_of_docsCoherent s hdocs t w udw hp3 hh
            rw [hm] at hm2
            obtain rfl := Option.some.inj hm2
            apply hp4
            show w = u
            rw [← hmu2, hmu]
      rw [hc0]
      omega
    · show (if (!(meta.username == u)) = true then some meta else (none : Option TokenMeta)).isSome
          = true ↔ (dropTokensDoc s.disk u).countP (holdsTok t) = 1
      have hqt : (!(meta.username == u)) = true := by simp [hmu]
      rw [hqt, if_pos rfl]
      simp only [Option.isSome_some, true_iff]
      have h1 : s.disk.countP (holdsTok t) = 1 := (hinv t).1 (by rw [hm]; rfl)
      have hind0 : (if holdsTok t (u, (lookupKV u s.disk).getD ⟨none, none⟩) then 1 else 0)
          = 0 := by
        cases hud : lookupKV u s.disk with
        | none => simp [holdsTok]
        | some ud =>
          simp only [Option.getD_some]
          by_cases hh : holdsTok t (u, ud) = true
          · obtain ⟨meta2, hm2, hmu2⟩ := holder_owner_of_docsCoherent s hdocs t u ud
              (lookupKV_some_mem _ _ _ hud) hh
            rw [hm] at hm2
            obtain rfl := Option.some.inj hm2
            exact absurd hmu2 hmu
          · simp [hh]
      rw [hind0, Nat.add_zero] at hdrop
      rw [hdrop]
      exact h1

theorem deleteUser_violation (s : AuthState) (u t : String) (meta : TokenMeta)
    (hown : ownersCoherentB s = true) (hdocs : docsCoherentB s = true)
    (hndd : NodupKeys s.disk)
    (hm : lookupKV t s.tokens = some meta) (hmu : meta.username = u) :
    (lookupKV t (deleteUser s u).tokens).isSome = true ∧
    (deleteUser s u).disk.countP (holdsTok t) = 0 ∧
    ¬ tokenInvariant (deleteUser s u) := by
  have hmem2 : (deleteUser s u).tokens = s.tokens := rfl
  have hsome : (lookupKV t (deleteUser s u).tokens).isSome = true := by
    rw [hmem2, hm]
    rfl
  obtain ⟨ud, hud0, -⟩ := owner_holds_of_ownersCoherent s hown t meta hm
  have hud : lookupKV u s.disk = some ud := hmu ▸ hud0
  have hdisk1 : dropInfoDoc s.disk u = setKV u ⟨none, ud.tokensDoc⟩ s.disk := by
    unfold dropInfoDoc
    rw [hud]
  have hnd1 : NodupKeys (dropInfoDoc s.disk u) := by
    rw [hdisk1]
    exact nodupKeys_setKV _ _ _ hndd
  have hud1 : lookupKV u (dropInfoDoc s.disk u) = some ⟨none, ud.tokensDoc⟩ := by
    rw [hdisk1]
    exact lookupKV_setKV_self _ _ _
  have hdisk2 : (deleteUser s u).disk = setKV u ⟨none, none⟩ (dropInfoDoc s.disk u) := by
    show dropTokensDoc (dropInfoDoc s.disk u) u = _
    unfold dropTokensDoc
    rw [hud1]
  have hcount : (deleteUser s u).disk.countP (holdsTok t) = 0 := by
    apply List.countP_eq_zero.2
    intro p hp
    rw [hdisk2] at hp
    rcases (mem_setKV_iff p u ⟨none, none⟩ _ hnd1).1 hp with rfl | ⟨hp1, hp2⟩
    · simp [holdsTok]
    · rw [hdisk1] at hp1
      rcases (mem_setKV_iff p u ⟨none, ud.tokensDoc⟩ _ hndd).1 hp1 with rfl | ⟨hp3, hp4⟩
      · exact absurd rfl hp2
      · obtain ⟨w, udw⟩ := p
        intro hh
        obtain ⟨meta2, hm2, hmu2⟩ := holder_owner_of_docsCoherent s hdocs t w udw hp3 hh
        rw [hm] at hm2
        obtain rfl := Option.some.inj hm2
        apply hp4
        show w = u
        rw [← hmu2, hmu]
  refine ⟨hsome, hcount, fun hinv2 => ?_⟩
  have h1 := (hinv2 t).1 hsome
  rw [hcount] at h1
  cases h1

theorem tokenInvariant_iff_on_keys (s : AuthState) :
    tokenInvariant s ↔ ∀ t ∈ tokenKeys s,
      ((lookupKV t s.tokens).isSome = true ↔ s.disk.countP (holdsTok t) = 1) := by
  constructor
  · intro h t _
    exact h t
  · intro h t
    by_cases ht : t ∈ tokenKeys s
    · exact h t ht
    · have hmemn : (lookupKV t s.tokens).isSome = false := by
        cases hl : lookupKV t s.tokens with
        | none => rfl
        | some v =>
          exact absurd (List.mem_append.2 (Or.inl
            (List.mem_map.2 ⟨(t, v), lookupKV_some_mem _ _ _ hl, rfl⟩))) ht
      have hc0 : s.disk.countP (holdsTok t) = 0 := by
        apply List.countP_eq_zero.2
        intro p hp hh
        obtain ⟨w, ud⟩ := p
        apply ht
        unfold holdsTok at hh
        cases hd : ud.tokensDoc with
        | none =>
          rw [hd] at hh
          cases hh
        | some doc =>
          rw [hd] at hh
          have hh2 : (lookupKV t doc).isSome = true := hh
          refine List.mem_append.2 (Or.inr (List.mem_flatten.2
            ⟨doc.map Prod.fst, List.mem_map.2 ⟨(w, ud), hp, by simp [hd]⟩,
             (lookupKV_isSome_iff_mem_keys t doc).1 hh2⟩))
      rw [hmemn, hc0]
      simp

/-- C3 (counterexample): after alice's signin stored her pair, the mirror
invariant holds; account deletion drops her user directory from disk but
leaves both tokens in the in-memory map, so `acc` is in memory while no
on-disk token document contains it, and the invariant is violated. -/
theorem deleteAccount_breaks_token_mirror :
    tokenInvariant (updateTokens aliceState "alice" (createTokenPair 0 "acc" "ref")) ∧
    (lookupKV "acc" (deleteUser
      (updateTokens aliceState "alice" (createTokenPair 0 "acc" "ref")) "alice").tokens).isSome
      = true ∧
    (deleteUser (updateTokens aliceState "alice" (createTokenPair 0 "acc" "ref"))
      "alice").disk.countP (holdsTok "acc") = 0 ∧
    ¬ tokenInvariant (deleteUser
      (updateTokens aliceState "alice" (createTokenPair 0 "acc" "ref")) "alice") := by
  refine ⟨(tokenInvariant_iff_on_keys _).2 (by decide), by decide, by decide, fun h => ?_⟩
  have h1 := (h "acc").1 (by decide)
  have h2 : (deleteUser (updateTokens aliceState "alice" (createTokenPair 0 "acc" "ref"))
      "alice").disk.countP (holdsTok "acc") = 0 := by decide
  rw [h2] at h1
  cases h1

/-- C3 (amended): in a well-formed state (owners and documents mutually
coherent, unique map keys) and with the minted tokens fresh, the mirror
invariant — a token is in the in-memory map iff exactly one user's on-disk
`tokens.json` contains it — is preserved by the token effects of signup
confirmation, signin and refresh (`updateTokens`), signout (`clearTokens`)
and password reset (optional `clearTokens` then `updateTokens`); but NOT by
account deletion: `deleteUser` drops the documents and leaves the in-memory
entries, so every token of the deleted user breaks the invariant. -/
theorem tokenStore_mirror_per_operation (s : AuthState) (u : String) (pair : TokenPair)
    (flag : Bool)
    (hinv : tokenInvariant s) (hown : ownersCoherentB s = true)
    (hdocs : docsCoherentB s = true)
    (hndm : NodupKeys s.tokens) (hndd : NodupKeys s.disk)
    (hfam : lookupKV pair.accessToken s.tokens = none)
    (hfrm : lookupKV pair.refreshToken s.tokens = none)
    (hfad : s.disk.countP (holdsTok pair.accessToken) = 0)
    (hfrd : s.disk.countP (holdsTok pair.refreshToken) = 0)
    (har : pair.accessToken ≠ pair.refreshToken) :
    tokenInvariant (updateTokens s u pair) ∧
    tokenInvariant (clearTokens s u) ∧
    tokenInvariant (updateTokens (if flag then clearTokens s u else s) u pair) ∧
    (∀ t meta, lookupKV t s.tokens = some meta → meta.username = u →
      (lookupKV t (deleteUser s u).tokens).isSome = true ∧
      (deleteUser s u).disk.countP (holdsTok t) = 0 ∧
      ¬ tokenInvariant (deleteUser s u)) := by
  refine ⟨updateTokens_invariant s u pair hinv hndd hfam hfrm hfad hfrd har,
    clearTokens_invariant s u hinv hdocs hndm hndd, ?_,
    fun t meta hm hmu => deleteUser_violation s u t meta hown hdocs hndd hm hmu⟩
  cases flag with
  | false => exact updateTokens_invariant s u pair hinv hndd hfam hfrm hfad hfrd har
  | true =>
    refine updateTokens_invariant (clearTokens s u) u pair
      (clearTokens_invariant s u hinv hdocs hndm hndd)
      (nodupKeys_dropTokensDoc _ _ hndd)
      (lookupKV_filter_of_none _ _ _ hfam)
      (lookupKV_filter_of_none _ _ _ hfrm)
      (countP_dropTokensDoc_zero _ _ _ hfad)
      (countP_dropTokensDoc_zero _ _ _ hfrd)
      har

/-- C3 (witness): starting from alice's post-signin state (which satisfies
the invariant and the coherence side conditions), a fresh reset-flow pair
keeps the invariant, while deleting the account breaks it. -/
theorem tokenStore_mirror_per_operation_witness :
    tokenInvariant (updateTokens
      (if true then clearTokens (updateTokens aliceState "alice"
        (createTokenPair 0 "acc" "ref")) "alice"
       else updateTokens aliceState "alice" (createTokenPair 0 "acc" "ref"))
      "alice" (createTokenPair 10 "a2" "r2")) ∧
    ¬ tokenInvariant (deleteUser
      (updateTokens aliceState "alice" (createTokenPair 0 "acc" "ref")) "alice") := by
  have h := tokenStore_mirror_per_operation
    (updateTokens aliceState "alice" (createTokenPair 0 "acc" "ref"))
    "alice" (createTokenPair 10 "a2" "r2") true
    ((tokenInvariant_iff_on_keys _).2 (by decide)) (by decide) (by decide)
    (by decide) (by decide) (by decide) (by decide) (by decide) (by decide) (by decide)
  exact ⟨h.2.2.1,
    (h.2.2.2 "acc" ⟨0 + ACCESS_TOKEN_LIFETIME, "alice", false⟩ (by decide) (by decide)).2.2⟩

end HttpNode
